import Mathlib

/-!
Shallow embedding of the pantry persistence and retrieval engine.

Strings are modelled as lists of characters (`Str`).  Floating-point
scores are modelled as rationals, following the specification's remark
that the scoring formulas must be reproduced in decision structure, not
numerically.  Regular-expression replacement is modelled by executable
matchers: each fixed pattern of the source is translated into a function
returning the length of the (leftmost-first, greedy) match at the head
of the input, and `replaceAll` reproduces Go's `ReplaceAllString`
scanning discipline (leftmost, non-overlapping, continue after the
match).
-/

namespace Pantry

abbrev Str := List Char

def strOf (s : String) : Str := s.data

def nlChar : Char := '\n'

def nlStr : Str := ['\n']

/-- Substring test, as in Go `strings.Contains s pat`. -/
def strContains : Str → Str → Bool
  | [], pat => pat.isEmpty
  | c :: rest, pat => pat.isPrefixOf (c :: rest) || strContains rest pat

/-- Length of the maximal run of characters satisfying `p` at the head. -/
def runLen (p : Char → Bool) : Str → Nat
  | [] => 0
  | c :: rest => if p c then runLen p rest + 1 else 0

/-- Fuelled core of `replaceAll`; the fuel only serves to make the
recursion structural (and hence kernel-computable), and `fuel ≥ s.length`
always holds at every call site. -/
def replaceAllF (m : Str → Option Nat) (marker : Str) : Nat → Str → Str
  | 0, s => s
  | _ + 1, [] => []
  | fuel + 1, c :: rest =>
    match m (c :: rest) with
    | some (n + 1) => marker ++ replaceAllF m marker fuel (rest.drop n)
    | _ => c :: replaceAllF m marker fuel rest

/-- Go `strings.ReplaceAll`-style replacement driven by a matcher: at each
position, if the matcher reports a match of length `n+1`, emit `marker`
and continue after the match; otherwise keep the character.  Zero-length
matches are treated as non-matches (every matcher in this file consumes
at least one character). -/
def replaceAll (m : Str → Option Nat) (marker : Str) (s : Str) : Str :=
  replaceAllF m marker s.length s

/-- Matcher for a literal pattern. -/
def litMatch (pat : Str) (s : Str) : Option Nat :=
  if pat.isPrefixOf s then some pat.length else none

/-- Remove every occurrence of `pat`, as Go `strings.ReplaceAll text pat ""`. -/
def stripAll (pat : Str) (s : Str) : Str := replaceAll (litMatch pat) [] s

-- ------------------------------------------------------------------
-- Redaction (internal/redaction/redaction.go)
-- ------------------------------------------------------------------

def redactMarker : Str := strOf "[REDACTED]"

def openTagStr : Str := strOf "<redacted>"

def closeTagStr : Str := strOf "</redacted>"

/-- Scan for the closing tag of the non-greedy regex
`<redacted>.*?</redacted>`; `.` does not match a newline, so the scan
aborts at a newline character.  `acc` accumulates the match length so
far. -/
def scanClose : Str → Nat → Option Nat
  | [], _ => none
  | c :: rest, acc =>
    if closeTagStr.isPrefixOf (c :: rest) then some (acc + 11)
    else if c = nlChar then none
    else scanClose rest (acc + 1)

/-- Matcher for the compiled regex `<redacted>.*?</redacted>`. -/
def tagMatch (s : Str) : Option Nat :=
  if openTagStr.isPrefixOf s then scanClose (s.drop 10) 10 else none

/-- Fuelled fixpoint loop for layer 1.  Every productive iteration of the
source loop strictly shortens the text (a tag match spans at least 21
characters and is replaced by the 10-character marker), so `s.length + 1`
iterations always reach the fixpoint. -/
def tagLoopF : Nat → Str → Str
  | 0, s => s
  | fuel + 1, s =>
    let s' := replaceAll tagMatch redactMarker s
    if s' = s then s else tagLoopF fuel s'

/-- The source's layer-1 loop: replace explicit redacted tags until the
text stops changing. -/
def tagLoop (s : Str) : Str := tagLoopF (s.length + 1) s

-- Character classes used by the built-in patterns (all ASCII, as in the
-- Go regexes).

def isAlnumChar (c : Char) : Bool := c.isAlpha || c.isDigit

def isUpperDigit (c : Char) : Bool := ('A' ≤ c && c ≤ 'Z') || c.isDigit

def isJwtChar (c : Char) : Bool := isAlnumChar c || c = '_' || c = '-'

def isSlackChar (c : Char) : Bool := isAlnumChar c || c = '-'

/-- RE2 whitespace class: tab, newline, form feed, carriage return, space. -/
def isWsChar (c : Char) : Bool :=
  c = ' ' || c = '\t' || c = '\n' || c = '\x0c' || c = '\r'

def notNl (c : Char) : Bool := c ≠ '\n'

/-- Matcher for `lit` followed by one or more characters of class `p`
(leftmost-first, greedy; nothing follows the run, so the greedy run is
final). -/
def litRun1Match (lit : Str) (p : Char → Bool) (s : Str) : Option Nat :=
  if lit.isPrefixOf s then
    let n := runLen p (s.drop lit.length)
    if n = 0 then none else some (lit.length + n)
  else none

/-- Matcher for `AKIA[0-9A-Z]{16}`. -/
def akiaMatch (s : Str) : Option Nat :=
  if (strOf "AKIA").isPrefixOf s then
    let body := (s.drop 4).take 16
    if body.length = 16 && body.all isUpperDigit then some 20 else none
  else none

/-- Matcher for `-----BEGIN (?:RSA )?PRIVATE KEY-----`. -/
def privKeyMatch (s : Str) : Option Nat :=
  if (strOf "-----BEGIN ").isPrefixOf s then
    let rest := s.drop 11
    if (strOf "RSA PRIVATE KEY-----").isPrefixOf rest then some 31
    else if (strOf "PRIVATE KEY-----").isPrefixOf rest then some 27
    else none
  else none

/-- Matcher for `eyJ[a-zA-Z0-9_-]+\.eyJ[a-zA-Z0-9_-]+`.  The dot is not in
the character class, so the greedy run before it is exactly the maximal
run. -/
def jwtMatch (s : Str) : Option Nat :=
  if (strOf "eyJ").isPrefixOf s then
    let r1 := s.drop 3
    let n1 := runLen isJwtChar r1
    if n1 = 0 then none
    else
      match r1.drop n1 with
      | '.' :: r3 =>
        if (strOf "eyJ").isPrefixOf r3 then
          let n2 := runLen isJwtChar (r3.drop 3)
          if n2 = 0 then none else some (3 + n1 + 1 + 3 + n2)
        else none
      | _ => none
  else none

/-- Tail of the key/value patterns: `\s*[:=]\s*["']?.+` after a key of
length `keyLen` at the head of `s`.  The optional quote backtracks when
`.+` would otherwise be empty. -/
def kvTailMatch (s : Str) (keyLen : Nat) : Option Nat :=
  let r1 := s.drop keyLen
  let w1 := runLen isWsChar r1
  match r1.drop w1 with
  | [] => none
  | c :: r2 =>
    if c = ':' || c = '=' then
      let w2 := runLen isWsChar r2
      match r2.drop w2 with
      | [] => none
      | q :: r4 =>
        if q = '"' || q = '\'' then
          let n := runLen notNl r4
          if n = 0 then
            if notNl q then some (keyLen + w1 + 1 + w2 + 1) else none
          else some (keyLen + w1 + 1 + w2 + 1 + n)
        else
          let n := runLen notNl (q :: r4)
          if n = 0 then none else some (keyLen + w1 + 1 + w2 + n)
    else none

/-- Matcher for `password\s*[:=]\s*["']?.+`. -/
def passwordMatch (s : Str) : Option Nat :=
  if (strOf "password").isPrefixOf s then kvTailMatch s 8 else none

/-- Matcher for `secret\s*[:=]\s*["']?.+`. -/
def secretMatch (s : Str) : Option Nat :=
  if (strOf "secret").isPrefixOf s then kvTailMatch s 6 else none

/-- Matcher for `api[_-]?key\s*[:=]\s*["']?.+` (the optional separator is
tried greedily, but the alternatives are mutually exclusive at a fixed
position). -/
def apiKeyMatch (s : Str) : Option Nat :=
  if (strOf "api_key").isPrefixOf s then kvTailMatch s 7
  else if (strOf "api-key").isPrefixOf s then kvTailMatch s 7
  else if (strOf "apikey").isPrefixOf s then kvTailMatch s 6
  else none

/-- The built-in sensitive patterns, in source order. -/
def builtinMatchers : List (Str → Option Nat) :=
  [ litRun1Match (strOf "sk_live_") isAlnumChar
  , litRun1Match (strOf "sk_test_") isAlnumChar
  , litRun1Match (strOf "ghp_") isAlnumChar
  , akiaMatch
  , litRun1Match (strOf "xoxb-") isSlackChar
  , privKeyMatch
  , jwtMatch
  , passwordMatch
  , secretMatch
  , apiKeyMatch ]

def applyMatchers (ms : List (Str → Option Nat)) (s : Str) : Str :=
  ms.foldl (fun t m => replaceAll m redactMarker t) s

/-- `RedactCompiled`: layer 1 (explicit tags, loop to fixpoint, then strip
orphan tags), layer 2 (built-in patterns), layer 3 (custom patterns,
modelled directly as matchers). -/
def redactCompiled (extra : List (Str → Option Nat)) (text : Str) : Str :=
  let t1 := stripAll closeTagStr (stripAll openTagStr (tagLoop text))
  applyMatchers extra (applyMatchers builtinMatchers t1)

/-- `Redact`: same as `RedactCompiled`; pattern compilation is modelled
away by taking matchers directly. -/
def redact (text : Str) (extra : List (Str → Option Nat)) : Str :=
  redactCompiled extra text

/-- Decides that a matcher matches at no position of `s`. -/
def matchesNowhere (m : Str → Option Nat) : Str → Bool
  | [] => (m []).isNone
  | c :: rest => (m (c :: rest)).isNone && matchesNowhere m rest

/-- A string is redaction-stable when it contains no redacted-tag
fragment and no built-in or custom pattern matches anywhere in it. -/
def redactStable (extra : List (Str → Option Nat)) (s : Str) : Bool :=
  !(strContains s openTagStr) && !(strContains s closeTagStr) &&
    (builtinMatchers ++ extra).all (fun m => matchesNowhere m s)

-- ------------------------------------------------------------------
-- Search results and the hybrid search engine (internal/search/hybrid.go)
-- ------------------------------------------------------------------

/-- `models.SearchResult`; the float64 score is modelled as a rational. -/
structure SearchResult where
  id : Str
  title : Str
  what : Str
  why : Option Str
  impact : Option Str
  category : Option Str
  tags : List Str
  project : Str
  source : Option Str
  score : ℚ
  hasDetails : Bool
  filePath : Str
  createdAt : Str
deriving DecidableEq

def DefaultFTSWeight : ℚ := 3 / 10

def DefaultVecWeight : ℚ := 7 / 10

def DefaultMinFTSResults : Nat := 3

/-- The batch maximum of `normalizeScores`, seeded with the first
element's score as in the source (0 for an empty batch, which the source
never queries). -/
def batchMax : List SearchResult → ℚ
  | [] => 0
  | r0 :: rest =>
    (r0 :: rest).foldl (fun m r => if m < r.score then r.score else m) r0.score

/-- `normalizeScores`: divide every score by the batch maximum (seeded
with the first element's score, as in the source); skipped when the list
is empty or the maximum is ≤ 0. -/
def normalizeScores (results : List SearchResult) : List SearchResult :=
  match results with
  | [] => []
  | _ :: _ =>
    if batchMax results ≤ 0 then results
    else results.map fun r => { r with score := r.score / batchMax results }

/-- Insertion of an FTS result into the id-keyed score map (`scores[r.ID]
= &result` overwrites on duplicate ids).  The Go map is modelled as an
insertion-ordered association list; Go map iteration order is
unspecified, and the final ranking is produced by the score sort. -/
def mapInsertFts (w : ℚ) (acc : List SearchResult) (r : SearchResult) :
    List SearchResult :=
  if acc.any (fun e => e.id == r.id) then
    acc.map (fun e => if e.id == r.id then { r with score := w * r.score } else e)
  else acc ++ [{ r with score := w * r.score }]

/-- Insertion of a vector result: add the weighted contribution when the
id is already present, insert otherwise. -/
def mapAddVec (w : ℚ) (acc : List SearchResult) (r : SearchResult) :
    List SearchResult :=
  if acc.any (fun e => e.id == r.id) then
    acc.map (fun e =>
      if e.id == r.id then { e with score := e.score + w * r.score } else e)
  else acc ++ [{ r with score := w * r.score }]

/-- The combined id-keyed score map built by `MergeResults` before
ranking. -/
def mergedScoreMap (fts vec : List SearchResult) (ftsW vecW : ℚ) :
    List SearchResult :=
  vec.foldl (mapAddVec vecW) (fts.foldl (mapInsertFts ftsW) [])

def scoreDescRel (a b : SearchResult) : Prop := b.score ≤ a.score

instance : DecidableRel scoreDescRel := fun a b =>
  inferInstanceAs (Decidable (b.score ≤ a.score))

instance : IsTotal SearchResult scoreDescRel :=
  ⟨fun a b => le_total b.score a.score⟩

instance : IsTrans SearchResult scoreDescRel :=
  ⟨fun _ _ _ h1 h2 => le_trans h2 h1⟩

def sortByScoreDesc (l : List SearchResult) : List SearchResult :=
  List.insertionSort scoreDescRel l

/-- `MergeResults`: normalize each list independently, combine weighted
scores additively on id collision, sort descending by combined score,
truncate to `limit`. -/
def mergeResults (ftsResults vecResults : List SearchResult)
    (ftsWeight vecWeight : ℚ) (limit : Nat) : List SearchResult :=
  let fts := normalizeScores ftsResults
  let vec := normalizeScores vecResults
  (sortByScoreDesc (mergedScoreMap fts vec ftsWeight vecWeight)).take limit

/-- Result of `TieredSearch` instrumented with observation flags for the
embedding-provider and vector-search calls. -/
structure TieredOutcome where
  result : Except Str (List SearchResult)
  embedCalled : Bool
  vecCalled : Bool

/-- `TieredSearch`, with its collaborators abstracted: `ftsOutcome` is the
outcome of the initial `FTSSearch(query, limit*2, …)` call, `provider` is
the optional embedding capability together with the outcome of embedding
the query, and `vecSearch` is the outcome of `VectorSearch` on a given
query embedding. -/
def tieredSearch (ftsOutcome : Except Str (List SearchResult))
    (provider : Option (Except Str (List ℚ)))
    (vecSearch : List ℚ → Except Str (List SearchResult))
    (limit minFTSResults : Nat) : TieredOutcome :=
  match ftsOutcome with
  | .error e => ⟨.error e, false, false⟩
  | .ok ftsRaw =>
    let ftsResults := normalizeScores ftsRaw
    if minFTSResults ≤ ftsResults.length then
      ⟨.ok (ftsResults.take limit), false, false⟩
    else
      match provider with
      | none => ⟨.ok (ftsResults.take limit), false, false⟩
      | some embedOutcome =>
        match embedOutcome with
        | .error _ => ⟨.ok (ftsResults.take limit), true, false⟩
        | .ok queryVec =>
          match vecSearch queryVec with
          | .error _ => ⟨.ok (ftsResults.take limit), true, true⟩
          | .ok vecResults =>
            ⟨.ok (mergeResults ftsResults vecResults DefaultFTSWeight
                DefaultVecWeight limit), true, true⟩

-- ------------------------------------------------------------------
-- Data model (internal/models) and the relational store (internal/db)
-- ------------------------------------------------------------------

/-- `models.Item`. -/
structure Item where
  id : Str
  title : Str
  what : Str
  why : Option Str
  impact : Option Str
  tags : List Str
  category : Option Str
  project : Str
  source : Option Str
  relatedFiles : List Str
  filePath : Str
  sectionAnchor : Str
  createdAt : Str
  updatedAt : Str
deriving DecidableEq

/-- A row of the `items` table (`db.ItemModel` plus its SQLite rowid). -/
structure ItemRow where
  rowid : Nat
  id : Str
  title : Str
  what : Str
  why : Option Str
  impact : Option Str
  tags : List Str
  category : Option Str
  project : Str
  source : Option Str
  relatedFiles : List Str
  filePath : Str
  sectionAnchor : Str
  createdAt : Str
  updatedAt : Str
  updatedCount : Nat
deriving DecidableEq

/-- A row of the `items_fts` full-text index (maintained by the
`items_ai`/`items_au` triggers; there is no delete trigger). -/
structure FtsRow where
  rowid : Nat
  title : Str
  what : Str
  why : Option Str
  impact : Option Str
  tags : List Str
  category : Option Str
  project : Str
  source : Option Str
deriving DecidableEq

/-- The `items_vec` virtual table: a fixed dimension and rows keyed by
item rowid. -/
structure VecState where
  dim : Nat
  rows : List (Nat × List ℚ)
deriving DecidableEq

/-- The whole database: items, detail rows (`item_details`), the FTS
index, the optional vector table, and the `embedding_dim` meta entry. -/
structure DBState where
  items : List ItemRow
  details : List (Str × Str)
  fts : List FtsRow
  vec : Option VecState
  metaDim : Option Nat
  nextRowid : Nat
deriving DecidableEq

inductive DbErr where
  | notFound
  | dimensionMismatch
  | storeFailure
deriving DecidableEq

instance {e a : Type} [DecidableEq e] [DecidableEq a] :
    DecidableEq (Except e a) := fun x y =>
  match x, y with
  | .error u, .error v =>
    if h : u = v then isTrue (by rw [h])
    else isFalse (fun hc => by cases hc; exact h rfl)
  | .ok u, .ok v =>
    if h : u = v then isTrue (by rw [h])
    else isFalse (fun hc => by cases hc; exact h rfl)
  | .error _, .ok _ => isFalse (fun hc => by cases hc)
  | .ok _, .error _ => isFalse (fun hc => by cases hc)

/-- Lexicographic strict order on strings (SQLite's TEXT ordering used by
GORM's `First`, which orders by primary key). -/
def strLtB : Str → Str → Bool
  | [], [] => false
  | [], _ :: _ => true
  | _ :: _, [] => false
  | a :: as, b :: bs => if a = b then strLtB as bs else decide (a < b)

/-- The element with the least key, modelling `First` with an ordered
primary key. -/
def firstByKey (key : α → Str) (l : List α) : Option α :=
  l.foldl (fun acc x =>
    match acc with
    | none => some x
    | some y => if strLtB (key x) (key y) then some x else some y) none

/-- GORM `WHERE id LIKE ? || '%' … First`: resolve an id or id-prefix to
the first matching item. -/
def resolveIdPre (items : List ItemRow) (p : Str) : Option ItemRow :=
  firstByKey (fun r => r.id) (items.filter (fun r => p.isPrefixOf r.id))

def itemToRow (item : Item) (rowid : Nat) : ItemRow :=
  { rowid := rowid, id := item.id, title := item.title, what := item.what,
    why := item.why, impact := item.impact, tags := item.tags,
    category := item.category, project := item.project,
    source := item.source, relatedFiles := item.relatedFiles,
    filePath := item.filePath, sectionAnchor := item.sectionAnchor,
    createdAt := item.createdAt, updatedAt := item.updatedAt,
    updatedCount := 0 }

def rowToFts (r : ItemRow) : FtsRow :=
  { rowid := r.rowid, title := r.title, what := r.what, why := r.why,
    impact := r.impact, tags := r.tags, category := r.category,
    project := r.project, source := r.source }

/-- Fault-injection points inside `InsertItem` (each sub-statement of the
source can fail with a store error). -/
structure InsertFaults where
  createItem : Bool
  rowidQuery : Bool
  createDetail : Bool
deriving DecidableEq

/-- `InsertItem`: insert the item row (with its FTS trigger entry in the
same statement), read back the rowid, then optionally insert the detail
row.  A duplicate id is a conflict.  The pair returned is (result,
post-state): the state after a failing sub-statement keeps the effects of
the earlier sub-statements, as in the source, which runs them as separate
statements. -/
def insertItem (flt : InsertFaults) (st : DBState) (item : Item)
    (details : Option Str) : Except DbErr Nat × DBState :=
  if flt.createItem || st.items.any (fun r => r.id == item.id) then
    (.error .storeFailure, st)
  else
    let rowid := st.nextRowid
    let st1 : DBState :=
      { st with items := st.items ++ [itemToRow item rowid],
                fts := st.fts ++ [rowToFts (itemToRow item rowid)],
                nextRowid := st.nextRowid + 1 }
    if flt.rowidQuery then (.error .storeFailure, st1)
    else
      match details with
      | some d =>
        if flt.createDetail then (.error .storeFailure, st1)
        else (.ok rowid, { st1 with details := st1.details ++ [(item.id, d)] })
      | none => (.ok rowid, st1)

/-- `GetItem`: exact-id lookup, plus the `hasDetails` flag. -/
def getItem (st : DBState) (itemID : Str) : Option (ItemRow × Bool) :=
  match st.items.find? (fun r => r.id == itemID) with
  | none => none
  | some r => some (r, st.details.any (fun d => d.1 == itemID))

/-- `GetDetails`: resolve by id prefix (`item_id LIKE ? || '%' … First`,
ordered by the `item_id` primary key). -/
def getDetails (st : DBState) (p : Str) : Option (Str × Str) :=
  firstByKey (fun d => d.1) (st.details.filter (fun d => p.isPrefixOf d.1))

/-- The per-row update of `UpdateItem`: bump `updated_count`, set
`updated_at`, replace the non-nil fields. -/
def updRow (fullID : Str) (what why impact : Option Str)
    (tags : Option (List Str)) (now : Str) (r : ItemRow) : ItemRow :=
  if r.id == fullID then
    { r with updatedCount := r.updatedCount + 1,
             updatedAt := now,
             what := what.getD r.what,
             why := match why with | some w => some w | none => r.why,
             impact := match impact with | some v => some v | none => r.impact,
             tags := tags.getD r.tags }
  else r

/-- The post-state of a successful `UpdateItem` on resolved row `target`:
the item row is updated in place (with the FTS update trigger
re-indexing it), then the detail body is appended to or created — whose
own errors the source discards. -/
def updateItemState (st : DBState) (target : ItemRow)
    (what why impact : Option Str) (tags : Option (List Str))
    (detailsAppend : Option Str) (now : Str) : DBState :=
  let fullID := target.id
  let upd := updRow fullID what why impact tags now
  let st1 : DBState :=
    { st with items := st.items.map upd,
              fts := (st.fts.filter (fun f => !(f.rowid == target.rowid)))
                ++ [rowToFts (upd target)] }
  match detailsAppend with
  | none => st1
  | some app =>
    match st1.details.find? (fun d => d.1 == fullID) with
    | some _ =>
      { st1 with details := st1.details.map (fun d =>
          if d.1 == fullID then (d.1, d.2 ++ strOf "\n\n" ++ app) else d) }
    | none => { st1 with details := st1.details ++ [(fullID, app)] }

/-- `UpdateItem`: resolve by prefix, fail with `NotFound` when nothing
matches, otherwise apply `updateItemState`. -/
def updateItem (fault : Bool) (st : DBState) (p : Str) (what why impact : Option Str)
    (tags : Option (List Str)) (detailsAppend : Option Str) (now : Str) :
    Except DbErr Unit × DBState :=
  match resolveIdPre st.items p with
  | none => (.error .notFound, st)
  | some target =>
    if fault then (.error .storeFailure, st)
    else (.ok (), updateItemState st target what why impact tags detailsAppend now)

/-- `DeleteItem`: resolve by prefix, delete the detail rows then the item
row.  The FTS index entry and any vector row are NOT touched by the
source. -/
def deleteItem (st : DBState) (p : Str) : Bool × DBState :=
  match resolveIdPre st.items p with
  | none => (false, st)
  | some target =>
    let fullID := target.id
    let st1 : DBState :=
      { st with details := st.details.filter (fun d => !(d.1 == fullID)),
                items := st.items.filter (fun r => !(r.id == fullID)) }
    (st.items.any (fun r => r.id == fullID), st1)

def mkSearchResult (m : ItemRow) (score : ℚ) (hasD : Bool) : SearchResult :=
  { id := m.id, title := m.title, what := m.what, why := m.why,
    impact := m.impact, category := m.category, tags := m.tags,
    project := m.project, source := m.source, score := score,
    hasDetails := hasD, filePath := m.filePath, createdAt := m.createdAt }

def matchesFilters (m : ItemRow) (project source : Option Str) : Bool :=
  (match project with | some p => m.project == p | none => true) &&
  (match source with | some s => m.source == some s | none => true)

/-- `FTSSearch`: the FTS5 match/bm25 machinery is abstracted into an
`oracle` assigning a relevance score (or no match) to each index row; the
query structure is fixed for a given oracle.  Matching index rows are
joined against `items` on rowid (so rows whose item was deleted drop
out), filtered, ordered by score descending (`ORDER BY fts.rank` with
`score = -rank`), and capped at `limit`. -/
def ftsSearch (oracle : FtsRow → Option ℚ) (st : DBState) (limit : Nat)
    (project source : Option Str) : List SearchResult :=
  let joined := st.fts.filterMap (fun f =>
    match oracle f with
    | none => none
    | some sc =>
      match st.items.find? (fun m => m.rowid == f.rowid) with
      | none => none
      | some m =>
        if matchesFilters m project source then
          some (mkSearchResult m sc (st.details.any (fun d => d.1 == m.id)))
        else none)
  (sortByScoreDesc joined).take limit

def distAscRel (q : List ℚ) (a b : Nat × List ℚ) (dist : List ℚ → List ℚ → ℚ) : Prop :=
  dist q a.2 ≤ dist q b.2

/-- `VectorSearch`: empty when no vector table exists; otherwise the KNN
operator returns the `limit` nearest vector rows (distance abstracted by
`dist`), which are joined against `items` and filtered, with
`Score = 1 - distance`. -/
def vectorSearch (dist : List ℚ → List ℚ → ℚ) (st : DBState) (q : List ℚ)
    (limit : Nat) (project source : Option Str) : List SearchResult :=
  match st.vec with
  | none => []
  | some v =>
    let knn := (List.insertionSort
      (fun a b : Nat × List ℚ => dist q a.2 ≤ dist q b.2) v.rows).take limit
    knn.filterMap (fun rv =>
      match st.items.find? (fun m => m.rowid == rv.1) with
      | none => none
      | some m =>
        if matchesFilters m project source then
          some (mkSearchResult m (1 - dist q rv.2)
            (st.details.any (fun d => d.1 == m.id)))
        else none)

/-- Reflexive lexicographic order on strings, for `ORDER BY created_at
DESC`. -/
def strLeB : Str → Str → Bool
  | [], _ => true
  | _ :: _, [] => false
  | a :: as, b :: bs => if a = b then strLeB as bs else decide (a < b)

/-- `ListRecent`: filter, order by `created_at` descending, cap. -/
def listRecent (st : DBState) (limit : Nat) (project source : Option Str) :
    List SearchResult :=
  let filtered := st.items.filter (fun m => matchesFilters m project source)
  let sorted := List.insertionSort
    (fun a b : ItemRow => strLeB b.createdAt a.createdAt) filtered
  (sorted.take limit).map (fun m =>
    mkSearchResult m 0 (st.details.any (fun d => d.1 == m.id)))

/-- An entry of `ListAllForReindex`. -/
structure ReindexEntry where
  rowid : Nat
  title : Str
  what : Str
  why : Option Str
  impact : Option Str
  tags : List Str
deriving DecidableEq

/-- `ListAllForReindex`: full scan ordered by rowid. -/
def listAllForReindex (st : DBState) : List ReindexEntry :=
  (List.insertionSort (fun a b : ItemRow => a.rowid ≤ b.rowid) st.items).map
    (fun r => ⟨r.rowid, r.title, r.what, r.why, r.impact, r.tags⟩)

def countItems (st : DBState) (project source : Option Str) : Nat :=
  (st.items.filter (fun m => matchesFilters m project source)).length

def hasVecTable (st : DBState) : Bool := st.vec.isSome

def dropVecTable (st : DBState) : DBState := { st with vec := none }

def setEmbeddingDim (st : DBState) (dim : Nat) : DBState :=
  { st with metaDim := some dim }

/-- `createVecTable`: `CREATE VIRTUAL TABLE IF NOT EXISTS`. -/
def createVecTable (st : DBState) (dim : Nat) : DBState :=
  match st.vec with
  | some _ => st
  | none => { st with vec := some ⟨dim, []⟩ }

/-- `EnsureVecTable`: when no dimension is stored, persist it and create
the table; when a dimension is stored, fail on mismatch and otherwise do
nothing — in particular it does NOT create the table when the stored
dimension already equals `dim`. -/
def ensureVecTable (st : DBState) (dim : Nat) : Except DbErr DBState :=
  match st.metaDim with
  | none => .ok (createVecTable (setEmbeddingDim st dim) dim)
  | some stored =>
    if stored ≠ dim then .error .dimensionMismatch else .ok st

/-- `InsertVector`: no-op (returning nil) when the vector table does not
exist; otherwise the insert fails on a dimension mismatch or duplicate
rowid and appends the row otherwise. -/
def insertVector (st : DBState) (rowid : Nat) (emb : List ℚ) :
    Except DbErr Unit × DBState :=
  match st.vec with
  | none => (.ok (), st)
  | some v =>
    if emb.length != v.dim || v.rows.any (fun rv => rv.1 == rowid) then
      (.error .storeFailure, st)
    else (.ok (), { st with vec := some ⟨v.dim, v.rows ++ [(rowid, emb)]⟩ })

-- ------------------------------------------------------------------
-- Shelf writer (internal/storage/shelf.go)
-- ------------------------------------------------------------------

/-- Go `strings.Split` on a single-character separator. -/
def splitOnCh (sep : Char) : Str → List Str
  | [] => [[]]
  | c :: rest =>
    if c = sep then [] :: splitOnCh sep rest
    else
      match splitOnCh sep rest with
      | [] => [[c]]
      | l :: ls => (c :: l) :: ls

def splitNl (s : Str) : List Str := splitOnCh '\n' s

def joinNl (lines : List Str) : Str := List.intercalate nlStr lines

def joinComma (parts : List Str) : Str := List.intercalate (strOf ", ") parts

def joinSpace (parts : List Str) : Str := List.intercalate (strOf " ") parts

/-- Go `strings.TrimSpace`. -/
def trimSpace (s : Str) : Str :=
  ((s.dropWhile Char.isWhitespace).reverse.dropWhile Char.isWhitespace).reverse

/-- Go `strings.TrimRight(s, "\n")`. -/
def trimRightNl (s : Str) : Str :=
  (s.reverse.dropWhile (fun c => c = '\n')).reverse

def toLowerStr (s : Str) : Str := s.map Char.toLower

def strLeBProp (a b : Str) : Prop := strLeB a b = true

instance : DecidableRel strLeBProp := fun a b =>
  inferInstanceAs (Decidable (strLeB a b = true))

/-- Go `sort.Strings` (ascending). -/
def sortStrings (l : List Str) : List Str := List.insertionSort strLeBProp l

/-- Index of the first occurrence of `pat` in `s` (Go `strings.Index`). -/
def findSub : Str → Str → Option Nat
  | [], pat => if pat.isEmpty then some 0 else none
  | c :: rest, pat =>
    if pat.isPrefixOf (c :: rest) then some 0
    else (findSub rest pat).map (· + 1)

/-- `models.ValidCategories`, in the fixed global order. -/
def ValidCategories : List Str :=
  [strOf "decision", strOf "pattern", strOf "bug", strOf "context",
   strOf "learning"]

/-- `models.CategoryHeadings`; a Go map lookup yields the zero value
(empty string) for an unknown category. -/
def categoryHeading (c : Str) : Str :=
  if c == strOf "decision" then strOf "Decisions"
  else if c == strOf "pattern" then strOf "Patterns"
  else if c == strOf "bug" then strOf "Bugs Fixed"
  else if c == strOf "context" then strOf "Context"
  else if c == strOf "learning" then strOf "Learnings"
  else []

def headingLine (heading : Str) : Str := strOf "## " ++ heading

/-- `renderSection`: the H3 section rendered for one item. -/
def renderSection (item : Item) (details : Option Str) : Str :=
  joinNl ([strOf "### " ++ item.title, strOf "**What:** " ++ item.what]
    ++ (match item.why with
        | some w => [strOf "**Why:** " ++ w]
        | none => [])
    ++ (match item.impact with
        | some v => [strOf "**Impact:** " ++ v]
        | none => [])
    ++ (match item.source with
        | some v => [strOf "**Source:** " ++ v]
        | none => [])
    ++ (match details with
        | some d => [[], strOf "<details>", d, strOf "</details>"]
        | none => []))

/-- `createNewSessionFile`: frontmatter, session title, optional category
heading, first section. -/
def createNewSessionFile (item : Item) (dateStr : Str) (sectionContent : Str)
    (now : Str) : Str :=
  let sources : List Str := match item.source with
    | some s => [s]
    | none => []
  let tags := sortStrings item.tags
  let lines : List Str :=
    [strOf "---", strOf "project: " ++ item.project]
    ++ (if sources.length > 0 then
          [strOf "sources: [" ++ joinComma sources ++ strOf "]"]
        else [])
    ++ [strOf "created: " ++ now]
    ++ (if tags.length > 0 then
          [strOf "tags: [" ++ joinComma tags ++ strOf "]"]
        else [])
    ++ [strOf "---", [], strOf "# " ++ dateStr ++ strOf " Session", []]
    ++ (match item.category with
        | some c => [headingLine (categoryHeading c), []]
        | none => [])
    ++ [sectionContent]
  joinNl lines ++ nlStr

/-- `splitFrontmatter`: `strings.SplitN(content, "---\n", 3)`; with fewer
than two separators the whole content is the body; otherwise the text
before the first separator is discarded, as in the source. -/
def splitFrontmatter (content : Str) : Str × Str :=
  let sep := strOf "---\n"
  match findSub content sep with
  | none => ([], content)
  | some i =>
    let rest := content.drop (i + 4)
    match findSub rest sep with
    | none => ([], content)
    | some j =>
      (sep ++ rest.take j ++ strOf "---", rest.drop (j + 4))

/-- Extract a bracketed, comma-separated list from a header line. -/
def extractBracketList (line : Str) : List Str :=
  match findSub line (strOf "[") with
  | none => []
  | some i =>
    match findSub (line.drop i) (strOf "]") with
    | none => []
    | some j =>
      let inner := (line.drop (i + 1)).take (j - 1)
      if inner.isEmpty then []
      else ((splitOnCh ',' inner).map trimSpace).filter (fun t => !t.isEmpty)

/-- `updateFrontmatter`: merge tags (case-insensitively, by lowercasing)
and sources into the existing bracketed lists, rewrite those lines, pass
all others through. -/
def updateFrontmatter (fm : Str) (item : Item) : Str :=
  let lines := splitNl fm
  let existingTags := lines.foldl (fun acc line =>
    if (strOf "tags:").isPrefixOf line then acc ++ extractBracketList line
    else acc) []
  let existingSources := lines.foldl (fun acc line =>
    if (strOf "sources:").isPrefixOf line then acc ++ extractBracketList line
    else acc) []
  let tagList := sortStrings (((existingTags ++ item.tags).map toLowerStr).dedup)
  let mergedSources : List Str :=
    match item.source with
    | some s =>
      if existingSources.any (fun e => e == s) then existingSources
      else existingSources ++ [s]
    | none => existingSources
  let updated := lines.map (fun line =>
    if (strOf "tags:").isPrefixOf line then
      strOf "tags: [" ++ joinComma tagList ++ strOf "]"
    else if (strOf "sources:").isPrefixOf line then
      strOf "sources: [" ++ joinComma mergedSources ++ strOf "]"
    else line)
  joinNl updated

def isBlankLine (l : Str) : Bool := (trimSpace l).isEmpty

/-- Fuelled line-level loop of `appendUnderExistingCategory`: after the
heading line, copy the blank lines and the H3 sections of the block,
insert a blank line and the new section before the next H2 heading (or
the end), and keep scanning.  The fuel only makes the recursion
structural; `fuel ≥ lines.length` always holds at the call sites. -/
def auecF (heading sectionContent : Str) : Nat → List Str → List Str
  | 0, lines => lines
  | _ + 1, [] => []
  | fuel + 1, line :: rest =>
    if line == headingLine heading then
      let blanks := rest.takeWhile isBlankLine
      let rest1 := rest.dropWhile isBlankLine
      let secs := rest1.takeWhile (fun l => !(strOf "## ").isPrefixOf l)
      let rest2 := rest1.dropWhile (fun l => !(strOf "## ").isPrefixOf l)
      line :: (blanks ++ secs ++ [[], sectionContent])
        ++ auecF heading sectionContent fuel rest2
    else line :: auecF heading sectionContent fuel rest

def auec (heading sectionContent : Str) (lines : List Str) : List Str :=
  auecF heading sectionContent lines.length lines

def appendUnderExistingCategory (body heading sectionContent : Str) : Str :=
  joinNl (auec heading sectionContent (splitNl body)) ++ nlStr

def headingToIdx (headingText : Str) : Option Nat :=
  ValidCategories.findIdx? (fun c => categoryHeading c == headingText)

/-- The known-category index of a line, exactly as the scan of
`insertNewCategory` reads it: an H2 line whose text (after trimming)
is a known category heading. -/
def lineHeadIdx (l : Str) : Option Nat :=
  if (strOf "## ").isPrefixOf l then headingToIdx (trimSpace (l.drop 3))
  else none

/-- The sequence of known-category indices of a body's H2 heading lines;
the body's headings are a subsequence of the fixed global category order
exactly when this sequence is strictly increasing. -/
def headingIdxSeq (s : Str) : List Nat := (splitNl s).filterMap lineHeadIdx

/-- Concatenated line-splitting of a list of text chunks. -/
def catSplit (L : List Str) : List Str :=
  L.foldr (fun x acc => splitNl x ++ acc) []

/-- Scan of `insertNewCategory`: the index of the first line that is an
H2 heading of a known category whose global index exceeds `targetIdx`,
or the number of lines when there is none. -/
def insertPos (targetIdx : Nat) : List Str → Nat
  | [] => 0
  | line :: rest =>
    if (strOf "## ").isPrefixOf line then
      match headingToIdx (trimSpace (line.drop 3)) with
      | some k => if targetIdx < k then 0 else 1 + insertPos targetIdx rest
      | none => 1 + insertPos targetIdx rest
    else 1 + insertPos targetIdx rest

/-- `insertNewCategory`: insert the new heading (plus section and padding
blank lines) at the position dictated by the fixed global category
order; unknown categories are appended at the end. -/
def insertNewCategory (body cat heading sectionContent : Str) : Str :=
  match ValidCategories.findIdx? (fun c => c == cat) with
  | none => trimRightNl body ++ strOf "\n\n" ++ sectionContent ++ nlStr
  | some targetIdx =>
    let lines := splitNl body
    let pos := insertPos targetIdx lines
    let newLines := lines.take pos
      ++ [headingLine heading, [], sectionContent, []] ++ lines.drop pos
    trimRightNl (joinNl newLines) ++ nlStr

/-- `insertSectionInBody`.  Note that the existing-heading test is a
substring test on the whole body, while the insertion loop looks for an
exact heading line. -/
def insertSectionInBody (body : Str) (item : Item) (sectionContent : Str) :
    Str :=
  match item.category with
  | none => trimRightNl body ++ strOf "\n\n" ++ sectionContent ++ nlStr
  | some cat =>
    let heading := categoryHeading cat
    if strContains body (headingLine heading) then
      appendUnderExistingCategory body heading sectionContent
    else insertNewCategory body cat heading sectionContent

def appendToSessionFile (content : Str) (item : Item) (sectionContent : Str) :
    Str :=
  let fm := (splitFrontmatter content).1
  let body := (splitFrontmatter content).2
  updateFrontmatter fm item ++ nlStr ++ insertSectionInBody body item sectionContent

/-- `WriteSessionItem` as a pure content transformer: `existing` is the
current file content when the per-day file already exists. -/
def writeSessionItemContent (existing : Option Str) (item : Item)
    (dateStr : Str) (details : Option Str) (now : Str) : Str :=
  let sectionContent := renderSection item details
  match existing with
  | none => createNewSessionFile item dateStr sectionContent now
  | some c => appendToSessionFile c item sectionContent

-- ------------------------------------------------------------------
-- Orchestrator (internal/core/service.go)
-- ------------------------------------------------------------------

/-- `models.RawItemInput`. -/
structure RawItemInput where
  title : Str
  what : Str
  why : Option Str
  impact : Option Str
  tags : List Str
  category : Option Str
  relatedFiles : List Str
  details : Option Str
  source : Option Str
deriving DecidableEq

def isAnchorChar (c : Char) : Bool := ('a' ≤ c && c ≤ 'z') || c.isDigit

/-- Fuelled core of the `[^a-z0-9]+` → `-` replacement of
`generateAnchor`. -/
def collapseRunsF : Nat → Str → Str
  | 0, s => s
  | _ + 1, [] => []
  | fuel + 1, c :: rest =>
    if isAnchorChar c then c :: collapseRunsF fuel rest
    else '-' :: collapseRunsF fuel (rest.dropWhile (fun d => !isAnchorChar d))

/-- Go `strings.Trim(s, cut)` with a single-character cutset. -/
def trimChar (c : Char) (s : Str) : Str :=
  ((s.dropWhile (fun d => d = c)).reverse.dropWhile (fun d => d = c)).reverse

/-- `models.generateAnchor`. -/
def generateAnchor (title : Str) : Str :=
  let lowered := toLowerStr title
  trimChar '-' (collapseRunsF lowered.length lowered)

/-- `models.FromRaw`; the generated UUID and the current time are passed
in as parameters. -/
def fromRaw (raw : RawItemInput) (project filePath : Str) (newId now : Str) :
    Item :=
  { id := newId, title := raw.title, what := raw.what, why := raw.why,
    impact := raw.impact, tags := raw.tags, category := raw.category,
    project := project, source := raw.source,
    relatedFiles := raw.relatedFiles, filePath := filePath,
    sectionAnchor := generateAnchor raw.title, createdAt := now,
    updatedAt := now }

/-- `mergeTags`: keep the existing tags, append the new tags whose
lowercase form is not yet present (deduplicating the new tags among
themselves). -/
def mergeTags (existing extra : List Str) : List Str :=
  (extra.foldl (fun (acc : List Str × List Str) tag =>
      if acc.2.any (fun s => s == toLowerStr tag) then acc
      else (acc.1 ++ [tag], acc.2 ++ [toLowerStr tag]))
    (existing, existing.map toLowerStr)).1

def getStrOpt : Option Str → Str
  | some s => s
  | none => []

/-- The service-level persistent state: the database, the shelf files
(path ↦ content), and the cached `vectorsAvailable` flag. -/
structure SysState where
  db : DBState
  shelf : List (Str × Str)
  vectorsAvailable : Option Bool
deriving DecidableEq

def shelfPut (shelf : List (Str × Str)) (path content : Str) :
    List (Str × Str) :=
  if shelf.any (fun f => f.1 == path) then
    shelf.map (fun f => if f.1 == path then (f.1, content) else f)
  else shelf ++ [(path, content)]

/-- Environment of one `Store` call: the FTS scoring oracle for the dedup
probe query, fault-injection flags for each fallible collaborator, and
the optional embedding provider. -/
structure StoreEnv where
  oracle : FtsRow → Option ℚ
  ftsProjFault : Bool
  ftsBroadFault : Bool
  updFault : Bool
  shelfFault : Bool
  insFaults : InsertFaults
  provider : Option (Str → Except Str (List ℚ))

structure StoreResult where
  id : Str
  filePath : Str
  action : Str
deriving DecidableEq

/-- Go `strings.EqualFold`, modelled as equality of lowercased strings. -/
def eqFold (a b : Str) : Bool := toLowerStr a == toLowerStr b

def titlesMatch (a b : Str) : Bool := eqFold (trimSpace a) (trimSpace b)

def mkSessionFilePath (project today : Str) : Str :=
  project ++ strOf "/" ++ today ++ strOf "-session.md"

/-- The redaction step of `Store`: `what`, `why`, `impact` and `details`
are redacted; `title` (and `tags`) are not. -/
def storeRedact (pats : List (Str → Option Nat)) (raw : RawItemInput) :
    RawItemInput :=
  { raw with
    what := redact raw.what pats,
    why := raw.why.map (fun w => redact w pats),
    impact := raw.impact.map (fun v => redact v pats),
    details := raw.details.map (fun d => redact d pats) }

/-- The project-scoped dedup probe `FTSSearch(query, 5, &project, nil)`. -/
def storeCandidatesE (env : StoreEnv) (db : DBState) (project : Str) :
    Except Str (List SearchResult) :=
  if env.ftsProjFault then .error (strOf "fts error")
  else .ok (ftsSearch env.oracle db 5 (some project) none)

/-- The unfiltered probe used for normalization; its error is discarded
by the source (`broad, _ :=`), leaving an empty slice. -/
def storeBroad (env : StoreEnv) (db : DBState) : List SearchResult :=
  if env.ftsBroadFault then [] else ftsSearch env.oracle db 5 none none

def broadMax (broad : List SearchResult) : ℚ :=
  match broad with
  | [] => 0
  | b :: _ => b.score

/-- The candidate score normalized by the first broad result's score, 0
when that maximum is not positive. -/
def normalizedTopScore (broad : List SearchResult) (top : SearchResult) : ℚ :=
  if 0 < broadMax broad then top.score / broadMax broad else 0

/-- The dedup decision of `Store`: an update exactly when the
project-scoped search succeeded with a candidate whose normalized score
reaches 0.7 and whose title matches case-insensitively after
trimming. -/
def dedupDecision (candidatesE : Except Str (List SearchResult))
    (broad : List SearchResult) (title : Str) : Option SearchResult :=
  match candidatesE with
  | .error _ => none
  | .ok [] => none
  | .ok (top :: _) =>
    if (7 : ℚ) / 10 ≤ normalizedTopScore broad top ∧
        titlesMatch title top.title = true then some top
    else none

def storeDecision (env : StoreEnv) (st : SysState) (project : Str)
    (raw : RawItemInput) : Option SearchResult :=
  dedupDecision (storeCandidatesE env st.db project) (storeBroad env st.db)
    raw.title

/-- `Service.Store`.  The markdown write precedes the database insert on
the create path; embedding and vector-insert failures are swallowed. -/
def store (env : StoreEnv) (raw0 : RawItemInput) (project : Str)
    (today now newId : Str) (pats : List (Str → Option Nat)) (st : SysState) :
    Except Str StoreResult × SysState :=
  let raw := storeRedact pats raw0
  match storeDecision env st project raw with
  | some top =>
    let mergedTags := mergeTags top.tags raw.tags
    let detailsAppend : Str :=
      match raw.details with
      | some d => strOf "--- updated " ++ today ++ strOf " ---\n" ++ d
      | none => []
    match updateItem env.updFault st.db top.id (some raw.what) raw.why
        raw.impact (some mergedTags) (some detailsAppend) now with
    | (.error _, db') =>
      (.error (strOf "failed to update item"), { st with db := db' })
    | (.ok _, db') =>
      (.ok ⟨top.id, top.filePath, strOf "updated"⟩, { st with db := db' })
  | none =>
    let filePath := mkSessionFilePath project today
    let item := fromRaw raw project filePath newId now
    if env.shelfFault then
      (.error (strOf "failed to write session file"), st)
    else
      let existing := (st.shelf.find? (fun f => f.1 == filePath)).map
        (fun f => f.2)
      let content := writeSessionItemContent existing item today raw.details now
      let st1 : SysState := { st with shelf := shelfPut st.shelf filePath content }
      match insertItem env.insFaults st1.db item raw.details with
      | (.error _, db') =>
        (.error (strOf "failed to insert item"), { st1 with db := db' })
      | (.ok rowid, db') =>
        let st2 : SysState := { st1 with db := db' }
        match env.provider with
        | none => (.ok ⟨item.id, filePath, strOf "created"⟩, st2)
        | some embed =>
          let embedText := item.title ++ strOf " " ++ item.what ++ strOf " "
            ++ getStrOpt item.why ++ strOf " " ++ getStrOpt item.impact
            ++ strOf " " ++ joinSpace item.tags
          match embed embedText with
          | .error _ => (.ok ⟨item.id, filePath, strOf "created"⟩, st2)
          | .ok embedding =>
            match ensureVecTable st2.db embedding.length with
            | .error _ => (.ok ⟨item.id, filePath, strOf "created"⟩, st2)
            | .ok db2 =>
              let db3 := (insertVector db2 rowid embedding).2
              (.ok ⟨item.id, filePath, strOf "created"⟩,
                { st2 with db := db3,
                           vectorsAvailable :=
                             st2.vectorsAvailable.map (fun _ => true) })

/-- Environment of one `Reindex` call. -/
structure ReindexEnv where
  provider : Option (Str → Except Str (List ℚ))
  setDimFault : Bool

def reindexEmbedText (e : ReindexEntry) : Str :=
  e.title ++ strOf " " ++ e.what ++ strOf " " ++ getStrOpt e.why
    ++ strOf " " ++ getStrOpt e.impact ++ strOf " " ++ joinSpace e.tags

/-- `Service.Reindex`: probe the provider with the fixed sentinel, drop
the vector table (its error is discarded), persist the new dimension,
call `EnsureVecTable`, then re-embed every item of `ListAllForReindex`,
skipping per-item embedding failures. -/
def reindex (env : ReindexEnv) (st : SysState) :
    Except Str (Nat × Nat) × SysState :=
  match env.provider with
  | none => (.error (strOf "failed to get embedding provider"), st)
  | some embed =>
    match embed (strOf "dimension probe") with
    | .error _ => (.error (strOf "failed to probe embedding dimension"), st)
    | .ok probe =>
      let dim := probe.length
      let db1 := dropVecTable st.db
      if env.setDimFault then
        (.error (strOf "failed to set dim"), { st with db := db1 })
      else
        let db2 := setEmbeddingDim db1 dim
        match ensureVecTable db2 dim with
        | .error _ =>
          (.error (strOf "failed to ensure vec table"), { st with db := db2 })
        | .ok db3 =>
          let entries := listAllForReindex db3
          let total := entries.length
          let db4 := entries.foldl (fun db e =>
            match embed (reindexEmbedText e) with
            | .error _ => db
            | .ok emb => (insertVector db e.rowid emb).2) db3
          (.ok (total, dim),
            { st with db := db4,
                      vectorsAvailable :=
                        st.vectorsAvailable.map (fun _ => true) })

-- ------------------------------------------------------------------
-- Proof-support definitions and shared witness fixtures
-- ------------------------------------------------------------------

def lookupById (l : List SearchResult) (i : Str) : Option SearchResult :=
  l.find? (fun e => e.id == i)

def sampleItemRow : ItemRow :=
  ⟨1, strOf "aa11", strOf "Alpha", strOf "does x", none, none, [strOf "t1"],
   some (strOf "decision"), strOf "proj", none, [],
   strOf "proj/2026-01-01-session.md", strOf "alpha",
   strOf "2026-01-01T00:00:00Z", strOf "2026-01-01T00:00:00Z", 0⟩

def sampleDB : DBState :=
  ⟨[sampleItemRow], [(strOf "aa11", strOf "body")], [rowToFts sampleItemRow],
   some ⟨2, [(1, [1, 1])]⟩, some 2, 2⟩

def sampleSys : SysState := ⟨sampleDB, [], none⟩

def emptySys : SysState := ⟨⟨[], [], [], none, none, 1⟩, [], none⟩

def srA : SearchResult :=
  ⟨strOf "a", strOf "TA", strOf "wa", none, none, none, [], strOf "p", none,
   4, false, strOf "fa", strOf "ca"⟩

def srB : SearchResult :=
  ⟨strOf "b", strOf "TB", strOf "wb", none, none, none, [], strOf "p", none,
   2, false, strOf "fb", strOf "cb"⟩

def srC : SearchResult :=
  ⟨strOf "c", strOf "TC", strOf "wc", none, none, none, [], strOf "p", none,
   1, false, strOf "fc", strOf "cc"⟩

def envPlain : StoreEnv :=
  ⟨fun _ => none, false, false, false, false, ⟨false, false, false⟩, none⟩

def envShelfFault : StoreEnv :=
  ⟨fun _ => none, false, false, false, true, ⟨false, false, false⟩, none⟩

def envInsFault : StoreEnv :=
  ⟨fun _ => none, false, false, false, false, ⟨true, false, false⟩, none⟩

def envDedup : StoreEnv :=
  ⟨fun f => if f.rowid == 1 then some 3 else none, false, false, false, false,
   ⟨false, false, false⟩, none⟩

def rawPlain : RawItemInput :=
  ⟨strOf "T", strOf "w", none, none, [], none, [], none, none⟩

def rawTitled : RawItemInput :=
  ⟨strOf "<redacted>k</redacted>", strOf "w", none, none, [], none, [], none,
   none⟩

def rawAlpha : RawItemInput :=
  ⟨strOf "Alpha", strOf "does x", none, none, [], none, [], none, none⟩

/-- The search result that the dedup probe produces for `sampleItemRow`
under `envDedup`. -/
def topAlpha : SearchResult := mkSearchResult sampleItemRow 3 true

/-- An item whose `what` text mentions "## Decisions" mid-line. -/
def itemC9a : Item :=
  ⟨strOf "i1", strOf "A", strOf "see ## Decisions here", none, none, [],
   some (strOf "pattern"), strOf "p", none, [], strOf "f", strOf "a",
   strOf "t0", strOf "t0"⟩

/-- A later item of category `decision` for the same session file. -/
def itemC9b : Item :=
  ⟨strOf "i2", strOf "B", strOf "w2", none, none, [],
   some (strOf "decision"), strOf "p", none, [], strOf "f", strOf "b",
   strOf "t0", strOf "t0"⟩

/-- A benign session body: one known heading, one section. -/
def bodyC9 : Str := strOf "# S\n\n## Decisions\n\n### A\n**What:** w\n"

/-- A rendered section for the witness write. -/
def secC9 : Str := strOf "### B\n**What:** w2"

-- ==================================================================
-- Proofs
-- ==================================================================

theorem dropWhile_len_le (p : α → Bool) (l : List α) :
    (l.dropWhile p).length ≤ l.length := by
  induction l with
  | nil => simp [List.dropWhile]
  | cons a as ih =>
    rw [List.dropWhile]
    cases p a
    · simp
    · simp only [List.length_cons]
      omega

-- Redaction lemmas and the redaction claims.

theorem replaceAllF_id (m : Str → Option Nat) (marker : Str) :
    ∀ (fuel : Nat) (s : Str), matchesNowhere m s = true →
      replaceAllF m marker fuel s = s := by
  intro fuel
  induction fuel with
  | zero => intro s _; rfl
  | succ fuel ih =>
    intro s hs
    match s with
    | [] => rfl
    | c :: rest =>
      rw [matchesNowhere] at hs
      simp only [Bool.and_eq_true, Option.isNone_iff_eq_none] at hs
      rw [replaceAllF, hs.1]
      rw [ih rest hs.2]

theorem replaceAll_id {m : Str → Option Nat} {marker s : Str}
    (h : matchesNowhere m s = true) : replaceAll m marker s = s :=
  replaceAllF_id m marker s.length s h

/-- If a matcher can only match where `pat` is a literal prefix, absence
of `pat` as a substring makes it match nowhere. -/
theorem matchesNowhere_of_not_contains (m : Str → Option Nat) (pat : Str)
    (hm : ∀ t : Str, pat.isPrefixOf t = false → m t = none) :
    ∀ s : Str, strContains s pat = false → matchesNowhere m s = true := by
  intro s
  induction s with
  | nil =>
    intro hc
    rw [strContains] at hc
    rw [matchesNowhere, Option.isNone_iff_eq_none]
    apply hm
    match pat, hc with
    | p :: ps, _ => rfl
  | cons c rest ih =>
    intro hc
    rw [strContains, Bool.or_eq_false_iff] at hc
    rw [matchesNowhere]
    simp only [Bool.and_eq_true, Option.isNone_iff_eq_none]
    exact ⟨hm _ hc.1, ih hc.2⟩

theorem tagMatch_none_of_not_open {t : Str}
    (h : openTagStr.isPrefixOf t = false) : tagMatch t = none := by
  rw [tagMatch, h]
  rfl

theorem litMatch_none_of_not_pre {pat t : Str}
    (h : pat.isPrefixOf t = false) : litMatch pat t = none := by
  rw [litMatch, h]
  rfl

theorem applyMatchers_id (ms : List (Str → Option Nat)) (s : Str)
    (h : ∀ m ∈ ms, matchesNowhere m s = true) : applyMatchers ms s = s := by
  induction ms with
  | nil => rfl
  | cons m rest ih =>
    rw [applyMatchers, List.foldl_cons,
        replaceAll_id (h m (List.mem_cons_self m rest))]
    exact ih fun m' hm' => h m' (List.mem_cons_of_mem m hm')

theorem redact_id_of_stable (extra : List (Str → Option Nat)) (s : Str)
    (h : redactStable extra s = true) : redact s extra = s := by
  rw [redactStable] at h
  simp only [Bool.and_eq_true, Bool.not_eq_true', List.all_eq_true,
    List.mem_append] at h
  obtain ⟨⟨hopen, hclose⟩, hms⟩ := h
  have htag : matchesNowhere tagMatch s = true :=
    matchesNowhere_of_not_contains tagMatch openTagStr
      (fun t ht => tagMatch_none_of_not_open ht) s hopen
  have hloop : tagLoop s = s := by
    rw [tagLoop, tagLoopF]
    simp [replaceAll_id htag]
  have hso : stripAll openTagStr s = s :=
    replaceAll_id (matchesNowhere_of_not_contains _ openTagStr
      (fun t ht => litMatch_none_of_not_pre ht) s hopen)
  have hsc : stripAll closeTagStr s = s :=
    replaceAll_id (matchesNowhere_of_not_contains _ closeTagStr
      (fun t ht => litMatch_none_of_not_pre ht) s hclose)
  rw [redact, redactCompiled]
  simp only [hloop, hso, hsc]
  rw [applyMatchers_id builtinMatchers s fun m hm => hms m (Or.inl hm),
      applyMatchers_id extra s fun m hm => hms m (Or.inr hm)]

/-- C8 (counterexample): the claim "Redact(Redact(x)) = Redact(x) for all
inputs and custom patterns, and text wrapped in redacted spans at any
nesting depth never appears verbatim in the output" fails.  With no
custom patterns, the orphan-tag stripping pass of
`"<red</redacted>acted>SECRET</red</redacted>acted>"` splices together a
fresh `<redacted>…</redacted>` span, so a second application changes the
output again; and for the nested input
`"<redacted>a<redacted>b</redacted>LEAKME</redacted>"` the text `LEAKME`
between the inner and the outer closing tags survives verbatim. -/
theorem redact_claim_counterexample :
    (redact (redact (strOf "<red</redacted>acted>SECRET</red</redacted>acted>") []) []
        ≠ redact (strOf "<red</redacted>acted>SECRET</red</redacted>acted>") []) ∧
    strContains
      (redact (strOf "<redacted>a<redacted>b</redacted>LEAKME</redacted>") [])
      (strOf "LEAKME") = true :=
  ⟨by decide, by decide⟩

/-- C8 (amended): redaction is idempotent on every input whose redacted
output is stable — containing no `<redacted>`/`</redacted>` fragment and
matched nowhere by any built-in or custom pattern.  In general a second
application can change the output (orphan-tag stripping can splice new
redacted tags, and custom patterns can match inside the replacement
marker), and text of a nested span lying between the inner and outer
closing tags can survive verbatim. -/
theorem redact_idempotent_on_stable (extra : List (Str → Option Nat))
    (x : Str) (h : redactStable extra (redact x extra) = true) :
    redact (redact x extra) extra = redact x extra :=
  redact_id_of_stable extra (redact x extra) h

/-- C8 (witness): a concrete stable input for the amended theorem. -/
theorem redact_idempotent_on_stable_witness :
    redactStable [] (redact (strOf "hello world") []) = true ∧
    redact (redact (strOf "hello world") []) [] = redact (strOf "hello world") [] :=
  ⟨by decide, redact_idempotent_on_stable [] (strOf "hello world") (by decide)⟩

-- C7: Reindex and the vector table.

theorem ensureVecTable_after_setDim (db : DBState) (dim : Nat) :
    ensureVecTable (setEmbeddingDim db dim) dim = .ok (setEmbeddingDim db dim) := by
  simp [ensureVecTable, setEmbeddingDim]

theorem insertVector_noVec {db : DBState} (h : db.vec = none) (rowid : Nat)
    (emb : List ℚ) : insertVector db rowid emb = (.ok (), db) := by
  simp [insertVector, h]

theorem reindex_fold_noVec (embed : Str → Except Str (List ℚ))
    (entries : List ReindexEntry) (db : DBState) (h : db.vec = none) :
    entries.foldl (fun db e =>
      match embed (reindexEmbedText e) with
      | .error _ => db
      | .ok emb => (insertVector db e.rowid emb).2) db = db := by
  induction entries generalizing db with
  | nil => rfl
  | cons e rest ih =>
    rw [List.foldl_cons]
    cases hemb : embed (reindexEmbedText e) with
    | error _ => exact ih db h
    | ok emb =>
      simp only [insertVector_noVec h]
      exact ih db h

/-- C7: contrary to the claim (and to the source's own comment "Drop and
recreate vec table"), a successful `Reindex` leaves NO vector table
behind: it calls `SetEmbeddingDim(dim)` before `EnsureVecTable(dim)`, so
`EnsureVecTable` finds the stored dimension equal to `dim` and returns
without creating the dropped table, after which every `InsertVector`
silently no-ops.  The claim's probe/drop/persist steps do happen, but
the recreate-and-populate step never does. -/
theorem reindex_never_recreates_vec_table (env : ReindexEnv) (st : SysState)
    (r : Nat × Nat) (st' : SysState) (h : reindex env st = (.ok r, st')) :
    hasVecTable st'.db = false ∧ st'.db.vec = none := by
  rw [reindex] at h
  cases hp : env.provider with
  | none =>
    simp only [hp] at h
    simp at h
  | some embed =>
    simp only [hp] at h
    cases hprobe : embed (strOf "dimension probe") with
    | error e =>
      simp only [hprobe] at h
      simp at h
    | ok probe =>
      simp only [hprobe] at h
      by_cases hsf : env.setDimFault = true
      · simp only [hsf, if_true] at h
        simp at h
      · simp only [hsf, if_false, Bool.false_eq_true] at h
        rw [ensureVecTable_after_setDim] at h
        have hvec : (setEmbeddingDim (dropVecTable st.db) probe.length).vec = none := rfl
        simp only [reindex_fold_noVec embed _ _ hvec] at h
        have hst' : st' = { st with
            db := setEmbeddingDim (dropVecTable st.db) probe.length,
            vectorsAvailable := st.vectorsAvailable.map (fun _ => true) } := by
          have := congrArg Prod.snd h
          simpa using this.symm
        subst hst'
        exact ⟨rfl, rfl⟩

/-- C7 (witness): a store holding one item and a live 2-dimensional
vector table, re-indexed with a working provider: `Reindex` reports
success over 1 item, yet the vector table is gone afterwards. -/
theorem reindex_never_recreates_vec_table_witness :
    (reindex ⟨some (fun _ => Except.ok [1, 1]), false⟩ sampleSys).1 = .ok (1, 2) ∧
    hasVecTable (reindex ⟨some (fun _ => Except.ok [1, 1]), false⟩ sampleSys).2.db = false :=
  ⟨rfl,
    (reindex_never_recreates_vec_table ⟨some (fun _ => Except.ok [1, 1]), false⟩
      sampleSys (1, 2)
      (reindex ⟨some (fun _ => Except.ok [1, 1]), false⟩ sampleSys).2 rfl).1⟩

-- C6: tiered search short circuit.

theorem normalizeScores_length (l : List SearchResult) :
    (normalizeScores l).length = l.length := by
  cases l with
  | nil => rfl
  | cons r rest =>
    rw [normalizeScores]
    by_cases h : batchMax (r :: rest) ≤ 0
    · simp [h]
    · simp [h]

/-- C6: when the FTS search succeeds with at least `minFTSResults`
results, `TieredSearch` invokes neither the embedding provider nor
`VectorSearch`, and returns exactly the FTS results, max-normalized in
place and truncated to the first `limit` entries. -/
theorem tieredSearch_short_circuit (ftsRaw : List SearchResult)
    (provider : Option (Except Str (List ℚ)))
    (vecSearch : List ℚ → Except Str (List SearchResult))
    (limit minFTSResults : Nat) (h : minFTSResults ≤ ftsRaw.length) :
    tieredSearch (.ok ftsRaw) provider vecSearch limit minFTSResults =
      ⟨.ok ((normalizeScores ftsRaw).take limit), false, false⟩ := by
  rw [tieredSearch.eq_def]
  simp only [normalizeScores_length, h, if_true]

/-- C6 (witness): three FTS results with the default `minFTSResults = 3`
and `limit = 2`. -/
theorem tieredSearch_short_circuit_witness :
    tieredSearch (.ok [srA, srB, srC]) (some (.ok [1])) (fun _ => .ok [])
        2 DefaultMinFTSResults =
      ⟨.ok ((normalizeScores [srA, srB, srC]).take 2), false, false⟩ :=
  tieredSearch_short_circuit [srA, srB, srC] (some (.ok [1])) (fun _ => .ok [])
    2 DefaultMinFTSResults (by decide)

-- C5: MergeResults.

theorem lookupById_cons (e : SearchResult) (l : List SearchResult) (i : Str) :
    lookupById (e :: l) i = if e.id = i then some e else lookupById l i := by
  rw [lookupById, lookupById]
  by_cases h : e.id = i
  · rw [List.find?_cons_of_pos _ (by simp [h]), if_pos h]
  · rw [List.find?_cons_of_neg _ (by simp [h]), if_neg h]

theorem lookupById_append (l1 l2 : List SearchResult) (i : Str) :
    lookupById (l1 ++ l2) i =
      match lookupById l1 i with
      | some e => some e
      | none => lookupById l2 i := by
  induction l1 with
  | nil => simp [lookupById]
  | cons e rest ih =>
    rw [List.cons_append, lookupById_cons, lookupById_cons]
    by_cases h : e.id = i
    · simp [h]
    · simp only [h, if_false, Bool.false_eq_true]
      exact ih

theorem lookupById_map_pres (g : SearchResult → SearchResult)
    (hg : ∀ e, (g e).id = e.id) (l : List SearchResult) (i : Str) :
    lookupById (l.map g) i = (lookupById l i).map g := by
  induction l with
  | nil => rfl
  | cons e rest ih =>
    rw [List.map_cons, lookupById_cons, lookupById_cons]
    by_cases h : e.id = i
    · rw [if_pos (by rw [hg]; exact h), if_pos h]
      rfl
    · rw [if_neg (by rw [hg]; exact h), if_neg h, ih]

theorem lookupById_eq_none_iff (l : List SearchResult) (i : Str) :
    lookupById l i = none ↔ ∀ e ∈ l, ¬ e.id = i := by
  induction l with
  | nil => simp [lookupById]
  | cons e rest ih =>
    rw [lookupById_cons]
    by_cases h : e.id = i
    · simp [h]
    · simp only [h, if_false, Bool.false_eq_true, ih]
      constructor
      · intro hall
        intro x hx
        rcases List.mem_cons.mp hx with rfl | hx'
        · exact h
        · exact hall x hx'
      · intro hall x hx
        exact hall x (List.mem_cons_of_mem e hx)

theorem lookupById_self {l : List SearchResult} {r : SearchResult}
    (hr : r ∈ l) (hl : (l.map (fun e => e.id)).Nodup) :
    lookupById l r.id = some r := by
  induction l with
  | nil => cases hr
  | cons e rest ih =>
    rw [List.map_cons, List.nodup_cons] at hl
    rw [lookupById_cons]
    rcases List.mem_cons.mp hr with rfl | hr'
    · rw [if_pos rfl]
    · rw [if_neg, ih hr' hl.2]
      intro he
      exact hl.1 (he ▸ List.mem_map_of_mem (fun e => e.id) hr')

theorem any_id_eq_false_iff (acc : List SearchResult) (j : Str) :
    acc.any (fun e => e.id == j) = false ↔ ∀ e ∈ acc, ¬ e.id = j := by
  rw [Bool.eq_false_iff]
  simp [List.any_eq_true]

theorem foldl_mapInsertFts_gen (w : ℚ) (l : List SearchResult) :
    ∀ acc : List SearchResult,
      (∀ r ∈ l, ∀ e ∈ acc, ¬ e.id = r.id) →
      ((l.map (fun r => r.id)).Nodup) →
      l.foldl (mapInsertFts w) acc =
        acc ++ l.map (fun r => { r with score := w * r.score }) := by
  induction l with
  | nil => intro acc _ _; simp
  | cons r rest ih =>
    intro acc hdisj hnd
    rw [List.map_cons, List.nodup_cons] at hnd
    rw [List.foldl_cons]
    have hany : acc.any (fun e => e.id == r.id) = false :=
      (any_id_eq_false_iff acc r.id).mpr
        (fun e he => hdisj r (List.mem_cons_self r rest) e he)
    rw [mapInsertFts, hany]
    simp only [Bool.false_eq_true, if_false]
    have hdisj' : ∀ x ∈ rest,
        ∀ e ∈ acc ++ [{ r with score := w * r.score }], ¬ e.id = x.id := by
      intro x hx e he
      rcases List.mem_append.mp he with he' | he'
      · exact hdisj x (List.mem_cons_of_mem r hx) e he'
      · have heq : e = { r with score := w * r.score } := by simpa using he'
        subst heq
        intro hid
        apply hnd.1
        rw [show r.id = x.id from hid]
        exact List.mem_map_of_mem (fun e => e.id) hx
    have hstep := ih (acc ++ [{ r with score := w * r.score }]) hdisj' hnd.2
    rw [hstep]
    simp

theorem foldl_mapInsertFts (w : ℚ) (l : List SearchResult)
    (hl : (l.map (fun r => r.id)).Nodup) :
    l.foldl (mapInsertFts w) [] =
      l.map (fun r => { r with score := w * r.score }) := by
  simpa using foldl_mapInsertFts_gen w l [] (by simp) hl

theorem mapAddVec_bump_id (w : ℚ) (r : SearchResult) :
    ∀ e : SearchResult,
      ((fun e => if e.id == r.id then
          { e with score := e.score + w * r.score } else e) e).id = e.id := by
  intro e
  by_cases he : (e.id == r.id) = true
  · simp [he]
  · simp [he]

theorem mapAddVec_ids (w : ℚ) (acc : List SearchResult) (r : SearchResult) :
    (mapAddVec w acc r).map (fun e => e.id) =
      if acc.any (fun e => e.id == r.id) = true then acc.map (fun e => e.id)
      else acc.map (fun e => e.id) ++ [r.id] := by
  rw [mapAddVec]
  by_cases h : acc.any (fun e => e.id == r.id) = true
  · rw [if_pos h, if_pos h]
    rw [List.map_map]
    apply List.map_congr_left
    intro e _
    exact mapAddVec_bump_id w r e
  · rw [if_neg h, if_neg h]
    simp

theorem foldl_mapAddVec_lookup (w : ℚ) (l : List SearchResult) :
    ∀ acc : List SearchResult,
      ((acc.map (fun e => e.id)).Nodup) →
      ((l.map (fun r => r.id)).Nodup) →
      (∀ i : Str,
        lookupById (l.foldl (mapAddVec w) acc) i =
          match lookupById acc i, lookupById l i with
          | some e, some r => some { e with score := e.score + w * r.score }
          | some e, none => some e
          | none, some r => some { r with score := w * r.score }
          | none, none => none) := by
  induction l with
  | nil =>
    intro acc _ _ i
    simp only [List.foldl_nil]
    have hnil : lookupById ([] : List SearchResult) i = none := rfl
    rw [hnil]
    cases lookupById acc i <;> rfl
  | cons r rest ih =>
    intro acc hacc hnd i
    rw [List.map_cons, List.nodup_cons] at hnd
    rw [List.foldl_cons]
    have hacc' : ((mapAddVec w acc r).map (fun e => e.id)).Nodup := by
      rw [mapAddVec_ids]
      by_cases h : acc.any (fun e => e.id == r.id) = true
      · rw [if_pos h]; exact hacc
      · rw [if_neg h]
        have hnot : ∀ e ∈ acc, ¬ e.id = r.id :=
          (any_id_eq_false_iff acc r.id).mp (Bool.eq_false_iff.mpr h)
        rw [List.nodup_append]
        refine ⟨hacc, List.nodup_singleton _, ?_⟩
        intro x hx
        simp only [List.mem_singleton]
        rcases List.mem_map.mp hx with ⟨e, he, rfl⟩
        exact hnot e he
    rw [ih (mapAddVec w acc r) hacc' hnd.2 i]
    rw [lookupById_cons]
    by_cases hir : r.id = i
    · subst hir
      have hrest : lookupById rest r.id = none := by
        rw [lookupById_eq_none_iff]
        intro e he hid
        apply hnd.1
        rw [← hid]
        exact List.mem_map_of_mem (fun r => r.id) he
      rw [hrest, if_pos rfl]
      by_cases hpres : acc.any (fun e => e.id == r.id) = true
      · obtain ⟨e0, he0, he0id⟩ : ∃ e0 ∈ acc, e0.id = r.id := by
          simpa using hpres
        have hlook : lookupById acc r.id = some e0 := by
          have := lookupById_self (l := acc) (r := e0) he0 hacc
          rw [he0id] at this
          exact this
        rw [mapAddVec, if_pos hpres]
        rw [lookupById_map_pres _ (mapAddVec_bump_id w r), hlook]
        have he0beq : (e0.id == r.id) = true := by simp [he0id]
        simp only [Option.map_some']
        rw [if_pos he0beq]
      · have hnone : lookupById acc r.id = none := by
          rw [lookupById_eq_none_iff]
          exact (any_id_eq_false_iff acc r.id).mp (Bool.eq_false_iff.mpr hpres)
        rw [hnone]
        rw [mapAddVec, if_neg hpres, lookupById_append, hnone]
        rw [lookupById_cons]
        simp
    · rw [if_neg hir]
      by_cases hpres : acc.any (fun e => e.id == r.id) = true
      · rw [mapAddVec, if_pos hpres]
        rw [lookupById_map_pres _ (mapAddVec_bump_id w r)]
        cases hl : lookupById acc i with
        | none => rfl
        | some e =>
          have heid : e.id = i := by
            have := List.find?_some hl
            simpa using this
          have hne : (e.id == r.id) = false := by
            simp only [beq_eq_false_iff_ne, ne_eq, heid]
            intro h'
            exact hir h'.symm
          simp only [Option.map_some']
          rw [if_neg (by simp [hne])]
      · rw [mapAddVec, if_neg hpres, lookupById_append]
        cases hl : lookupById acc i with
        | none =>
          have hsingle : lookupById [{ r with score := w * r.score }] i = none := by
            rw [lookupById_cons, if_neg hir]
            rfl
          rw [hsingle]
        | some e => rfl

theorem sorted_take {l : List SearchResult} (n : Nat)
    (h : List.Sorted scoreDescRel l) : List.Sorted scoreDescRel (l.take n) :=
  List.Pairwise.sublist (List.take_sublist n l) h

/-- C5: `MergeResults` first normalizes each input list by its own
maximum (skipped when the list is empty or its maximum is ≤ 0); an id
present in both normalized lists receives the combined score
`ftsWeight·nFTS + vecWeight·nVec` (on the FTS entry's metadata), an id
present in exactly one list receives only that list's weighted
contribution; the default weights sum to 1; and the output is the merged
map sorted descending by combined score and truncated to `limit`. -/
theorem mergeResults_spec (fts vec : List SearchResult) (ftsW vecW : ℚ)
    (limit : Nat)
    (hf : ((normalizeScores fts).map (fun r => r.id)).Nodup)
    (hv : ((normalizeScores vec).map (fun r => r.id)).Nodup) :
    (∀ i : Str,
      lookupById (mergedScoreMap (normalizeScores fts) (normalizeScores vec)
          ftsW vecW) i =
        match lookupById (normalizeScores fts) i,
            lookupById (normalizeScores vec) i with
        | some rf, some rv =>
          some { rf with score := ftsW * rf.score + vecW * rv.score }
        | some rf, none => some { rf with score := ftsW * rf.score }
        | none, some rv => some { rv with score := vecW * rv.score }
        | none, none => none) ∧
    mergeResults fts vec ftsW vecW limit =
      (sortByScoreDesc (mergedScoreMap (normalizeScores fts)
        (normalizeScores vec) ftsW vecW)).take limit ∧
    List.Sorted scoreDescRel (mergeResults fts vec ftsW vecW limit) ∧
    (mergeResults fts vec ftsW vecW limit).length ≤ limit ∧
    (∀ r ∈ mergeResults fts vec ftsW vecW limit,
      r ∈ mergedScoreMap (normalizeScores fts) (normalizeScores vec) ftsW vecW) ∧
    DefaultFTSWeight + DefaultVecWeight = 1 ∧
    (∀ l : List SearchResult, l = [] ∨ batchMax l ≤ 0 → normalizeScores l = l) ∧
    (∀ l : List SearchResult, 0 < batchMax l →
      normalizeScores l = l.map (fun r => { r with score := r.score / batchMax l })) := by
  refine ⟨?_, rfl, ?_, ?_, ?_, by norm_num [DefaultFTSWeight, DefaultVecWeight], ?_, ?_⟩
  · intro i
    rw [mergedScoreMap]
    rw [foldl_mapAddVec_lookup vecW (normalizeScores vec)
      ((normalizeScores fts).foldl (mapInsertFts ftsW) [])
      (by rw [foldl_mapInsertFts ftsW _ hf]
          rw [List.map_map]
          simpa using hf)
      hv i]
    rw [foldl_mapInsertFts ftsW _ hf]
    rw [lookupById_map_pres (fun r => { r with score := ftsW * r.score })
      (fun e => rfl)]
    cases lookupById (normalizeScores fts) i with
    | none => cases lookupById (normalizeScores vec) i <;> rfl
    | some rf => cases lookupById (normalizeScores vec) i <;> rfl
  · exact sorted_take limit
      (List.sorted_insertionSort scoreDescRel _)
  · rw [mergeResults]
    exact List.length_take_le limit _
  · intro r hr
    rw [mergeResults] at hr
    have hr' : r ∈ sortByScoreDesc (mergedScoreMap (normalizeScores fts)
        (normalizeScores vec) ftsW vecW) :=
      List.Sublist.mem hr (List.take_sublist _ _)
    exact (List.perm_insertionSort scoreDescRel _).mem_iff.mp hr'
  · intro l hl
    rcases hl with rfl | hle
    · rfl
    · cases l with
      | nil => rfl
      | cons r rest => rw [normalizeScores, if_pos hle]
  · intro l hl
    cases l with
    | nil => simp [batchMax] at hl
    | cons r rest => rw [normalizeScores, if_neg (not_le.mpr hl)]

/-- C5 (witness): id `a` appears in both concrete lists and `b` only in
the FTS list; the instantiated conclusion exhibits the combined-score
map, the descending sort and the truncation for them. -/
theorem mergeResults_spec_witness :
    (∀ i : Str,
      lookupById (mergedScoreMap (normalizeScores [srA, srB])
          (normalizeScores [{ srA with score := 9 }]) DefaultFTSWeight
          DefaultVecWeight) i =
        match lookupById (normalizeScores [srA, srB]) i,
            lookupById (normalizeScores [{ srA with score := 9 }]) i with
        | some rf, some rv =>
          some { rf with score := DefaultFTSWeight * rf.score
                   + DefaultVecWeight * rv.score }
        | some rf, none => some { rf with score := DefaultFTSWeight * rf.score }
        | none, some rv => some { rv with score := DefaultVecWeight * rv.score }
        | none, none => none) ∧
    List.Sorted scoreDescRel
      (mergeResults [srA, srB] [{ srA with score := 9 }] DefaultFTSWeight
        DefaultVecWeight 5) ∧
    (mergeResults [srA, srB] [{ srA with score := 9 }] DefaultFTSWeight
        DefaultVecWeight 5).length ≤ 5 :=
  let h := mergeResults_spec [srA, srB] [{ srA with score := 9 }]
    DefaultFTSWeight DefaultVecWeight 5 (by decide) (by decide)
  ⟨h.1, h.2.2.1, h.2.2.2.1⟩

-- C3: deletion cascade.

theorem firstByKey_aux (key : α → Str) (l : List α) :
    ∀ acc : Option α,
      l.foldl (fun acc x =>
        match acc with
        | none => some x
        | some y => if strLtB (key x) (key y) then some x else some y) acc = acc ∨
      ∃ x ∈ l, l.foldl (fun acc x =>
        match acc with
        | none => some x
        | some y => if strLtB (key x) (key y) then some x else some y) acc = some x := by
  induction l with
  | nil => intro acc; left; rfl
  | cons x rest ih =>
    intro acc
    rw [List.foldl_cons]
    rcases ih (match acc with
      | none => some x
      | some y => if strLtB (key x) (key y) then some x else some y) with h | h
    · rw [h]
      cases acc with
      | none => right; exact ⟨x, List.mem_cons_self x rest, rfl⟩
      | some y =>
        by_cases hlt : strLtB (key x) (key y) = true
        · right
          refine ⟨x, List.mem_cons_self x rest, ?_⟩
          simp [hlt]
        · left
          simp [hlt]
    · rcases h with ⟨z, hz, hzeq⟩
      right
      exact ⟨z, List.mem_cons_of_mem x hz, hzeq⟩

theorem firstByKey_mem {key : α → Str} {l : List α} {x : α}
    (h : firstByKey key l = some x) : x ∈ l := by
  rcases firstByKey_aux key l none with h' | h'
  · rw [firstByKey] at h
    rw [h'] at h
    cases h
  · rcases h' with ⟨z, hz, hzeq⟩
    rw [firstByKey] at h
    rw [hzeq] at h
    cases h
    exact hz

theorem foldl_min_some (key : α → Str) (l : List α) :
    ∀ y : α, (l.foldl (fun acc x =>
      match acc with
      | none => some x
      | some y => if strLtB (key x) (key y) then some x else some y)
        (some y)).isSome = true := by
  induction l with
  | nil => intro y; rfl
  | cons x rest ih =>
    intro y
    rw [List.foldl_cons]
    by_cases hlt : strLtB (key x) (key y) = true
    · simp only [hlt, if_true]
      exact ih x
    · simp only [hlt, if_false, Bool.false_eq_true]
      exact ih y

theorem firstByKey_some_of_mem {key : α → Str} {l : List α} {x : α}
    (hx : x ∈ l) : (firstByKey key l).isSome = true := by
  cases l with
  | nil => cases hx
  | cons a rest =>
    rw [firstByKey, List.foldl_cons]
    exact foldl_min_some key rest a

theorem not_id_of_mem_filter_ne {l : List ItemRow} {fullID : Str} {m : ItemRow}
    (hm : m ∈ l.filter (fun r => !(r.id == fullID))) : ¬ m.id = fullID := by
  have := List.of_mem_filter hm
  simpa using this

theorem ftsSearch_id_mem (oracle : FtsRow → Option ℚ) (st : DBState)
    (limit : Nat) (project source : Option Str) :
    ∀ r ∈ ftsSearch oracle st limit project source,
      ∃ m ∈ st.items, r.id = m.id := by
  intro r hr
  rw [ftsSearch] at hr
  have hr1 : r ∈ sortByScoreDesc (st.fts.filterMap (fun f =>
      match oracle f with
      | none => none
      | some sc =>
        match st.items.find? (fun m => m.rowid == f.rowid) with
        | none => none
        | some m =>
          if matchesFilters m project source then
            some (mkSearchResult m sc (st.details.any (fun d => d.1 == m.id)))
          else none)) := List.mem_of_mem_take hr
  have hr2 := (List.perm_insertionSort scoreDescRel _).mem_iff.mp hr1
  rcases List.mem_filterMap.mp hr2 with ⟨f, _, heq⟩
  cases ho : oracle f with
  | none =>
    simp only [ho] at heq
    cases heq
  | some sc =>
    simp only [ho] at heq
    cases hfind : st.items.find? (fun m => m.rowid == f.rowid) with
    | none =>
      simp only [hfind] at heq
      cases heq
    | some m =>
      simp only [hfind] at heq
      by_cases hfil : matchesFilters m project source = true
      · rw [if_pos hfil] at heq
        cases heq
        exact ⟨m, List.mem_of_find?_eq_some hfind, rfl⟩
      · rw [if_neg hfil] at heq
        cases heq

theorem vectorSearch_id_mem (dist : List ℚ → List ℚ → ℚ) (st : DBState)
    (q : List ℚ) (limit : Nat) (project source : Option Str) :
    ∀ r ∈ vectorSearch dist st q limit project source,
      ∃ m ∈ st.items, r.id = m.id := by
  intro r hr
  rw [vectorSearch] at hr
  cases hv : st.vec with
  | none => rw [hv] at hr; cases hr
  | some v =>
    rw [hv] at hr
    rcases List.mem_filterMap.mp hr with ⟨rv, _, heq⟩
    cases hfind : st.items.find? (fun m => m.rowid == rv.1) with
    | none =>
      simp only [hfind] at heq
      cases heq
    | some m =>
      simp only [hfind] at heq
      by_cases hfil : matchesFilters m project source = true
      · rw [if_pos hfil] at heq
        cases heq
        exact ⟨m, List.mem_of_find?_eq_some hfind, rfl⟩
      · rw [if_neg hfil] at heq
        cases heq

theorem listRecent_id_mem (st : DBState) (limit : Nat)
    (project source : Option Str) :
    ∀ r ∈ listRecent st limit project source, ∃ m ∈ st.items, r.id = m.id := by
  intro r hr
  rw [listRecent] at hr
  rcases List.mem_map.mp hr with ⟨m, hm, heq⟩
  have hm1 : m ∈ List.insertionSort
      (fun a b : ItemRow => strLeB b.createdAt a.createdAt)
      (st.items.filter (fun m => matchesFilters m project source)) :=
    List.mem_of_mem_take hm
  have hm2 := (List.perm_insertionSort _ _).mem_iff.mp hm1
  refine ⟨m, List.mem_of_mem_filter hm2, ?_⟩
  rw [← heq]
  rfl

/-- C3 (counterexample): after a successful `DeleteItem`, the item's
embedding row is NOT removed from the vector index — the source deletes
only the detail row and the item row, and the migration defines no
delete trigger; the vector row (rowid 1 here) survives as an orphan. -/
theorem deleteItem_leaves_vector_row :
    (deleteItem sampleDB (strOf "aa11")).1 = true ∧
    ((deleteItem sampleDB (strOf "aa11")).2.vec.map
      (fun v => v.rows.map (fun rv => rv.1))) = some [1] :=
  ⟨by decide, by decide⟩

/-- C3 (amended): after `DeleteItem` resolves a prefix to an item and
returns `deleted = true`, the FTS index entry and the embedding row are
left in place (not removed, contrary to the claim), but because every
search result is produced by joining against the `items` table, the item
is no longer observable: `GetItem` on the resolved id is absent,
`GetDetails` on the resolved id is absent (given that no other stored
detail key extends that id), and the id appears in no `FTSSearch`,
`VectorSearch` or `ListRecent` result. -/
theorem deleteItem_cascade (st : DBState) (p : Str) (target : ItemRow)
    (st' : DBState)
    (hres : resolveIdPre st.items p = some target)
    (hdel : deleteItem st p = (true, st'))
    (hpf : ∀ d ∈ st.details, target.id.isPrefixOf d.1 = true → d.1 = target.id) :
    st'.vec = st.vec ∧ st'.fts = st.fts ∧
    getItem st' target.id = none ∧
    getDetails st' target.id = none ∧
    (∀ oracle limit project source, target.id ∉
      (ftsSearch oracle st' limit project source).map (fun r => r.id)) ∧
    (∀ dist q limit project source, target.id ∉
      (vectorSearch dist st' q limit project source).map (fun r => r.id)) ∧
    (∀ limit project source, target.id ∉
      (listRecent st' limit project source).map (fun r => r.id)) := by
  rw [deleteItem, hres] at hdel
  have hst' : st' = { st with
      details := st.details.filter (fun d => !(d.1 == target.id)),
      items := st.items.filter (fun r => !(r.id == target.id)) } := by
    have := congrArg Prod.snd hdel
    simpa using this.symm
  subst hst'
  refine ⟨rfl, rfl, ?_, ?_, ?_, ?_, ?_⟩
  · have hfind : (st.items.filter (fun r => !(r.id == target.id))).find?
        (fun r => r.id == target.id) = none := by
      rw [List.find?_eq_none]
      intro x hx
      have := not_id_of_mem_filter_ne hx
      simpa using this
    simp [getItem, hfind]
  · rw [getDetails]
    have hnil : (st.details.filter (fun d => !(d.1 == target.id))).filter
        (fun d => target.id.isPrefixOf d.1) = [] := by
      rw [List.filter_eq_nil_iff]
      intro d hd
      have hne : ¬ d.1 = target.id := by
        have := List.of_mem_filter hd
        simpa using this
      intro hpre
      exact hne (hpf d (List.mem_of_mem_filter hd) hpre)
    rw [hnil]
    rfl
  · intro oracle limit project source hmem
    rcases List.mem_map.mp hmem with ⟨r, hr, hid⟩
    rcases ftsSearch_id_mem oracle _ limit project source r hr with ⟨m, hm, hmid⟩
    exact not_id_of_mem_filter_ne hm (by rw [← hmid, hid])
  · intro dist q limit project source hmem
    rcases List.mem_map.mp hmem with ⟨r, hr, hid⟩
    rcases vectorSearch_id_mem dist _ q limit project source r hr with ⟨m, hm, hmid⟩
    exact not_id_of_mem_filter_ne hm (by rw [← hmid, hid])
  · intro limit project source hmem
    rcases List.mem_map.mp hmem with ⟨r, hr, hid⟩
    rcases listRecent_id_mem _ limit project source r hr with ⟨m, hm, hmid⟩
    exact not_id_of_mem_filter_ne hm (by rw [← hmid, hid])

/-- C3 (witness): deleting the sample item by its full id. -/
theorem deleteItem_cascade_witness :
    getItem (deleteItem sampleDB (strOf "aa11")).2 (strOf "aa11") = none ∧
    getDetails (deleteItem sampleDB (strOf "aa11")).2 (strOf "aa11") = none ∧
    (deleteItem sampleDB (strOf "aa11")).2.vec = sampleDB.vec := by
  have h := deleteItem_cascade sampleDB (strOf "aa11") sampleItemRow
    (deleteItem sampleDB (strOf "aa11")).2 (by decide) rfl (by decide)
  exact ⟨h.2.2.1, h.2.2.2.1, h.1⟩

-- Store-path lemmas shared by the orchestrator claims.

theorem updateItemState_items (st : DBState) (target : ItemRow)
    (what why impact : Option Str) (tags : Option (List Str))
    (dapp : Option Str) (now : Str) :
    (updateItemState st target what why impact tags dapp now).items =
      st.items.map (updRow target.id what why impact tags now) := by
  unfold updateItemState
  cases dapp with
  | none => rfl
  | some app =>
    dsimp only
    split
    · rfl
    · rfl

theorem updateItemState_vec (st : DBState) (target : ItemRow)
    (what why impact : Option Str) (tags : Option (List Str))
    (dapp : Option Str) (now : Str) :
    (updateItemState st target what why impact tags dapp now).vec = st.vec ∧
    (updateItemState st target what why impact tags dapp now).metaDim = st.metaDim := by
  unfold updateItemState
  cases dapp with
  | none => exact ⟨rfl, rfl⟩
  | some app =>
    dsimp only
    split
    · exact ⟨rfl, rfl⟩
    · exact ⟨rfl, rfl⟩

theorem updateItemState_details_of_none (st : DBState) (target : ItemRow)
    (what why impact : Option Str) (tags : Option (List Str))
    (app : Str) (now : Str)
    (hfind : st.details.find? (fun d => d.1 == target.id) = none) :
    (updateItemState st target what why impact tags (some app) now).details =
      st.details ++ [(target.id, app)] := by
  unfold updateItemState
  simp only [hfind]

theorem updateItemState_details_of_some (st : DBState) (target : ItemRow)
    (what why impact : Option Str) (tags : Option (List Str))
    (app : Str) (now : Str) (b : Str × Str)
    (hfind : st.details.find? (fun d => d.1 == target.id) = some b) :
    (updateItemState st target what why impact tags (some app) now).details =
      st.details.map (fun d =>
        if d.1 == target.id then (d.1, d.2 ++ strOf "\n\n" ++ app) else d) := by
  unfold updateItemState
  simp only [hfind]

theorem updRow_id (fullID : Str) (what why impact : Option Str)
    (tags : Option (List Str)) (now : Str) (r : ItemRow) :
    (updRow fullID what why impact tags now r).id = r.id := by
  unfold updRow
  by_cases h : (r.id == fullID) = true
  · rw [if_pos h]
  · rw [if_neg h]

theorem resolveIdPre_mem {st : List ItemRow} {p : Str} {target : ItemRow}
    (h : resolveIdPre st p = some target) : target ∈ st :=
  List.mem_of_mem_filter (firstByKey_mem h)

/-- A successful dedup decision routes `Store` to the update path and
returns the existing item's id and file path without touching the
shelf. -/
theorem store_update_path (env : StoreEnv) (raw0 : RawItemInput)
    (project today now newId : Str) (pats : List (Str → Option Nat))
    (st : SysState) (top : SearchResult) (target : ItemRow)
    (hdec : storeDecision env st project (storeRedact pats raw0) = some top)
    (hupd : env.updFault = false)
    (hres : resolveIdPre st.db.items top.id = some target) :
    store env raw0 project today now newId pats st =
      (.ok ⟨top.id, top.filePath, strOf "updated"⟩,
       { st with
          db :=
            updateItemState st.db target (some (storeRedact pats raw0).what)
              (storeRedact pats raw0).why (storeRedact pats raw0).impact
              (some (mergeTags top.tags (storeRedact pats raw0).tags))
              (some (match (storeRedact pats raw0).details with
                | some d => strOf "--- updated " ++ today ++ strOf " ---\n" ++ d
                | none => [])) now }) := by
  rw [store]
  simp only [hdec]
  rw [updateItem, hres, hupd]
  simp only [Bool.false_eq_true, if_false]

theorem insertItem_ok_state (st : DBState) (item : Item) (details : Option Str)
    (hfresh : st.items.any (fun r => r.id == item.id) = false) :
    insertItem ⟨false, false, false⟩ st item details =
      (.ok st.nextRowid,
       { st with
          items := st.items ++ [itemToRow item st.nextRowid],
          details := st.details ++ (details.map (fun d => (item.id, d))).toList,
          fts := st.fts ++ [rowToFts (itemToRow item st.nextRowid)],
          nextRowid := st.nextRowid + 1 }) := by
  rw [insertItem]
  simp only [hfresh, Bool.or_false, Bool.false_eq_true, if_false]
  cases details with
  | none => simp
  | some d => rfl

/-- With no dedup hit and no faults, `Store` writes the shelf file and then
inserts the item row, its FTS entry and the optional detail row. -/
theorem store_create_path (env : StoreEnv) (raw0 : RawItemInput)
    (project today now newId : Str) (pats : List (Str → Option Nat))
    (st : SysState)
    (hdec : storeDecision env st project (storeRedact pats raw0) = none)
    (hshelf : env.shelfFault = false)
    (hins : env.insFaults = ⟨false, false, false⟩)
    (hprov : env.provider = none)
    (hfresh : st.db.items.any (fun r => r.id == newId) = false) :
    store env raw0 project today now newId pats st =
      (.ok ⟨newId, mkSessionFilePath project today, strOf "created"⟩,
       { st with
          shelf :=
            shelfPut st.shelf (mkSessionFilePath project today)
              (writeSessionItemContent
                ((st.shelf.find? (fun f =>
                    f.1 == mkSessionFilePath project today)).map (fun f => f.2))
                (fromRaw (storeRedact pats raw0) project
                  (mkSessionFilePath project today) newId now)
                today (storeRedact pats raw0).details now),
          db :=
            { st.db with
               items := st.db.items ++
                 [itemToRow (fromRaw (storeRedact pats raw0) project
                    (mkSessionFilePath project today) newId now)
                   st.db.nextRowid],
               details := st.db.details ++
                 (((storeRedact pats raw0).details).map
                   (fun d => (newId, d))).toList,
               fts := st.db.fts ++
                 [rowToFts (itemToRow (fromRaw (storeRedact pats raw0) project
                    (mkSessionFilePath project today) newId now)
                   st.db.nextRowid)],
               nextRowid := st.db.nextRowid + 1 } }) := by
  rw [store]
  simp only [hdec, hshelf, hins, Bool.false_eq_true, if_false]
  rw [insertItem_ok_state]
  · simp only [hprov]
    rfl
  · exact hfresh

theorem updateItem_error_state (fault : Bool) (st : DBState) (p : Str)
    (what why impact : Option Str) (tags : Option (List Str))
    (dapp : Option Str) (now : Str) (e : DbErr) (db2 : DBState)
    (h : updateItem fault st p what why impact tags dapp now = (.error e, db2)) :
    db2 = st := by
  rw [updateItem] at h
  cases hres : resolveIdPre st.items p with
  | none =>
    simp only [hres] at h
    exact (congrArg Prod.snd h).symm
  | some target =>
    simp only [hres] at h
    cases hf : fault with
    | true =>
      rw [if_pos hf] at h
      exact (congrArg Prod.snd h).symm
    | false =>
      rw [if_neg (by simp [hf])] at h
      cases congrArg Prod.fst h

theorem insertItem_vec_meta (flt : InsertFaults) (st : DBState) (item : Item)
    (details : Option Str) :
    (insertItem flt st item details).2.vec = st.vec ∧
    (insertItem flt st item details).2.metaDim = st.metaDim := by
  rw [insertItem]
  dsimp only
  split
  · exact ⟨rfl, rfl⟩
  · split
    · exact ⟨rfl, rfl⟩
    · split
      · split
        · exact ⟨rfl, rfl⟩
        · exact ⟨rfl, rfl⟩
      · exact ⟨rfl, rfl⟩

/-- C1 (counterexample): with the database insert failing, `Store` returns
an error, yet the shelf file has already been written — an orphan shelf
write that contradicts "no partial writes". -/
theorem store_error_counterexample :
    (store envInsFault rawPlain (strOf "p") (strOf "2026-01-02") (strOf "t1")
        (strOf "bb22") [] emptySys).1 =
      .error (strOf "failed to insert item") ∧
    ((store envInsFault rawPlain (strOf "p") (strOf "2026-01-02") (strOf "t1")
        (strOf "bb22") [] emptySys).2).shelf ≠ emptySys.shelf := by
  exact ⟨by decide, by decide⟩

/-- C1 (amended): an erroring `Store` never touches the vector index, the
embedding dimension, or the cached `vectorsAvailable` flag; an update-path
error and a shelf-write error leave the whole state unchanged; but a
create-path insert error can leave the already-written shelf file behind. -/
theorem store_error_effects (env : StoreEnv) (raw0 : RawItemInput)
    (project today now newId : Str) (pats : List (Str → Option Nat))
    (st st' : SysState) (msg : Str)
    (h : store env raw0 project today now newId pats st = (.error msg, st')) :
    st'.db.vec = st.db.vec ∧ st'.db.metaDim = st.db.metaDim ∧
    st'.vectorsAvailable = st.vectorsAvailable ∧
    (∀ top, storeDecision env st project (storeRedact pats raw0) = some top →
      st' = st) ∧
    (env.shelfFault = true → st' = st) := by
  rw [store] at h
  cases hdec : storeDecision env st project (storeRedact pats raw0) with
  | some top =>
    simp only [hdec] at h
    rcases hu : updateItem env.updFault st.db top.id
        (some (storeRedact pats raw0).what) (storeRedact pats raw0).why
        (storeRedact pats raw0).impact
        (some (mergeTags top.tags (storeRedact pats raw0).tags))
        (some (match (storeRedact pats raw0).details with
          | some d => strOf "--- updated " ++ today ++ strOf " ---\n" ++ d
          | none => [])) now with ⟨res, db2⟩
    simp only [hu] at h
    cases res with
    | error e =>
      have hdb : db2 = st.db := updateItem_error_state _ _ _ _ _ _ _ _ _ _ _ hu
      have hst : st' = { st with db := db2 } := (congrArg Prod.snd h).symm
      rw [hdb] at hst
      subst hst
      exact ⟨rfl, rfl, rfl, fun _ _ => rfl, fun _ => rfl⟩
    | ok u => cases congrArg Prod.fst h
  | none =>
    simp only [hdec] at h
    by_cases hsf : env.shelfFault = true
    · rw [if_pos hsf] at h
      have hst : st' = st := (congrArg Prod.snd h).symm
      subst hst
      exact ⟨rfl, rfl, rfl,
        (fun top htop => Option.noConfusion htop),
        (fun _ => rfl)⟩
    · rw [if_neg hsf] at h
      rcases hi : insertItem env.insFaults st.db
          (fromRaw (storeRedact pats raw0) project
            (mkSessionFilePath project today) newId now)
          (storeRedact pats raw0).details with ⟨ires, idb⟩
      simp only [hi] at h
      cases ires with
      | error e =>
        have hst : st' = { st with
            shelf := shelfPut st.shelf (mkSessionFilePath project today)
              (writeSessionItemContent
                ((st.shelf.find? (fun f =>
                    f.1 == mkSessionFilePath project today)).map (fun f => f.2))
                (fromRaw (storeRedact pats raw0) project
                  (mkSessionFilePath project today) newId now)
                today (storeRedact pats raw0).details now),
            db := idb } := (congrArg Prod.snd h).symm
        have hvm := insertItem_vec_meta env.insFaults st.db
          (fromRaw (storeRedact pats raw0) project
            (mkSessionFilePath project today) newId now)
          (storeRedact pats raw0).details
        rw [hi] at hvm
        subst hst
        refine ⟨hvm.1, hvm.2, rfl,
          (fun top htop => Option.noConfusion htop),
          (fun hsf2 => absurd hsf2 hsf)⟩
      | ok rowid =>
        cases hp : env.provider with
        | none =>
          simp only [hp] at h
          cases congrArg Prod.fst h
        | some embed =>
          simp only [hp] at h
          split at h
          · cases congrArg Prod.fst h
          · split at h
            · cases congrArg Prod.fst h
            · cases congrArg Prod.fst h

/-- C1 (witness): a shelf-write failure leaves the state untouched. -/
theorem store_error_effects_witness :
    ((store envShelfFault rawPlain (strOf "p") (strOf "2026-01-02")
        (strOf "t1") (strOf "bb22") [] emptySys).2).db.vec =
      emptySys.db.vec ∧
    ((store envShelfFault rawPlain (strOf "p") (strOf "2026-01-02")
        (strOf "t1") (strOf "bb22") [] emptySys).2).db.metaDim =
      emptySys.db.metaDim ∧
    ((store envShelfFault rawPlain (strOf "p") (strOf "2026-01-02")
        (strOf "t1") (strOf "bb22") [] emptySys).2).vectorsAvailable =
      emptySys.vectorsAvailable ∧
    (∀ top, storeDecision envShelfFault emptySys (strOf "p")
        (storeRedact [] rawPlain) = some top →
      (store envShelfFault rawPlain (strOf "p") (strOf "2026-01-02")
        (strOf "t1") (strOf "bb22") [] emptySys).2 = emptySys) ∧
    (envShelfFault.shelfFault = true →
      (store envShelfFault rawPlain (strOf "p") (strOf "2026-01-02")
        (strOf "t1") (strOf "bb22") [] emptySys).2 = emptySys) :=
  store_error_effects envShelfFault rawPlain (strOf "p") (strOf "2026-01-02")
    (strOf "t1") (strOf "bb22") [] emptySys
    (store envShelfFault rawPlain (strOf "p") (strOf "2026-01-02")
      (strOf "t1") (strOf "bb22") [] emptySys).2
    (strOf "failed to write session file") (by decide)

/-- C2 (counterexample): a title the redactor would change is persisted
verbatim to the indexed item row and to the shelf file — the title is
never passed through the redactor. -/
theorem store_title_counterexample :
    redact rawTitled.title [] ≠ rawTitled.title ∧
    ((store envPlain rawTitled (strOf "p") (strOf "2026-01-02") (strOf "t1")
        (strOf "bb22") [] emptySys).2).db.items.map (fun r => r.title) =
      [rawTitled.title] ∧
    ((store envPlain rawTitled (strOf "p") (strOf "2026-01-02") (strOf "t1")
        (strOf "bb22") [] emptySys).2).shelf.any
      (fun f => strContains f.2 rawTitled.title) = true := by
  exact ⟨by decide, by decide, by decide⟩

/-- C2 (amended): on the create path the free-text fields `what`, `why`,
`impact` and `details` are persisted only in redacted form, while the
title is persisted verbatim, unredacted. -/
theorem store_redacts_fields_not_title (env : StoreEnv) (raw0 : RawItemInput)
    (project today now newId : Str) (pats : List (Str → Option Nat))
    (st : SysState)
    (hdec : storeDecision env st project (storeRedact pats raw0) = none)
    (hshelf : env.shelfFault = false)
    (hins : env.insFaults = ⟨false, false, false⟩)
    (hprov : env.provider = none)
    (hfresh : st.db.items.any (fun r => r.id == newId) = false) :
    ((store env raw0 project today now newId pats st).2).db.items.map
        (fun r => (r.title, r.what, r.why, r.impact)) =
      st.db.items.map (fun r => (r.title, r.what, r.why, r.impact)) ++
        [(raw0.title, redact raw0.what pats,
          raw0.why.map (fun w => redact w pats),
          raw0.impact.map (fun v => redact v pats))] ∧
    ((store env raw0 project today now newId pats st).2).db.details =
      st.db.details ++
        (raw0.details.map (fun d => (newId, redact d pats))).toList := by
  rw [store_create_path env raw0 project today now newId pats st hdec hshelf
    hins hprov hfresh]
  constructor
  · simp [itemToRow, fromRaw, storeRedact]
  · cases hd : raw0.details with
    | none => simp [storeRedact, hd]
    | some d => simp [storeRedact, hd]

/-- C2 (witness): the amended statement at the concrete counterexample
input. -/
theorem store_redacts_fields_not_title_witness :
    ((store envPlain rawTitled (strOf "p") (strOf "2026-01-02") (strOf "t1")
        (strOf "bb22") [] emptySys).2).db.items.map
        (fun r => (r.title, r.what, r.why, r.impact)) =
      emptySys.db.items.map (fun r => (r.title, r.what, r.why, r.impact)) ++
        [(rawTitled.title, redact rawTitled.what [],
          rawTitled.why.map (fun w => redact w []),
          rawTitled.impact.map (fun v => redact v []))] ∧
    ((store envPlain rawTitled (strOf "p") (strOf "2026-01-02") (strOf "t1")
        (strOf "bb22") [] emptySys).2).db.details =
      emptySys.db.details ++
        (rawTitled.details.map
          (fun d => (strOf "bb22", redact d []))).toList :=
  store_redacts_fields_not_title envPlain rawTitled (strOf "p")
    (strOf "2026-01-02") (strOf "t1") (strOf "bb22") [] emptySys
    (by decide) rfl rfl rfl (by decide)

/-- Under `envDedup` the sample store's dedup probe decides for an update
of `sampleItemRow` when the titles match. -/
theorem storeDecision_sample :
    storeDecision envDedup sampleSys (strOf "proj") (storeRedact [] rawAlpha) =
      some topAlpha := by
  have hc : storeCandidatesE envDedup sampleSys.db (strOf "proj") =
      .ok [topAlpha] := by decide
  have hb : storeBroad envDedup sampleSys.db = [topAlpha] := by decide
  rw [storeDecision, hc, hb]
  unfold dedupDecision
  dsimp only
  rw [if_pos]
  refine ⟨?_, by decide⟩
  rw [normalizedTopScore]
  have hm : broadMax [topAlpha] = 3 := rfl
  rw [hm, if_pos (by norm_num : (0 : ℚ) < 3)]
  have hs : topAlpha.score = 3 := rfl
  rw [hs]
  norm_num

/-- C4: with a successful project-scoped probe returning top candidate
`top`, `Store` takes the update path exactly when `top`'s score normalized
by the unfiltered maximum reaches 0.7 and the trimmed, case-insensitive
titles match; it then returns action "updated" for the existing item and
adds no row, while in every other case it returns action "created" for the
fresh id and appends exactly one new item row. -/
theorem store_dedup_threshold (env : StoreEnv) (raw0 : RawItemInput)
    (project today now newId : Str) (pats : List (Str → Option Nat))
    (st : SysState) (top : SearchResult) (rest : List SearchResult)
    (target : ItemRow)
    (hcand : storeCandidatesE env st.db project = .ok (top :: rest))
    (hupd : env.updFault = false)
    (hshelf : env.shelfFault = false)
    (hins : env.insFaults = ⟨false, false, false⟩)
    (hprov : env.provider = none)
    (hres : resolveIdPre st.db.items top.id = some target)
    (hfresh : st.db.items.any (fun r => r.id == newId) = false) :
    (storeDecision env st project (storeRedact pats raw0) = some top ↔
      (7 : ℚ) / 10 ≤ normalizedTopScore (storeBroad env st.db) top ∧
        titlesMatch (storeRedact pats raw0).title top.title = true) ∧
    ((7 : ℚ) / 10 ≤ normalizedTopScore (storeBroad env st.db) top ∧
        titlesMatch (storeRedact pats raw0).title top.title = true →
      (store env raw0 project today now newId pats st).1 =
          .ok ⟨top.id, top.filePath, strOf "updated"⟩ ∧
        ((store env raw0 project today now newId pats st).2).db.items.length =
          st.db.items.length) ∧
    (¬ ((7 : ℚ) / 10 ≤ normalizedTopScore (storeBroad env st.db) top ∧
        titlesMatch (storeRedact pats raw0).title top.title = true) →
      (store env raw0 project today now newId pats st).1 =
          .ok ⟨newId, mkSessionFilePath project today, strOf "created"⟩ ∧
        ((store env raw0 project today now newId pats st).2).db.items.length =
          st.db.items.length + 1) := by
  have hiff : storeDecision env st project (storeRedact pats raw0) = some top ↔
      (7 : ℚ) / 10 ≤ normalizedTopScore (storeBroad env st.db) top ∧
        titlesMatch (storeRedact pats raw0).title top.title = true := by
    rw [storeDecision, hcand]
    unfold dedupDecision
    dsimp only
    by_cases hcond : (7 : ℚ) / 10 ≤
        normalizedTopScore (storeBroad env st.db) top ∧
        titlesMatch (storeRedact pats raw0).title top.title = true
    · rw [if_pos hcond]
      simp [hcond]
    · rw [if_neg hcond]
      simp [hcond]
  refine ⟨hiff, ?_, ?_⟩
  · intro hcond
    have hdec := hiff.mpr hcond
    rw [store_update_path env raw0 project today now newId pats st top target
      hdec hupd hres]
    refine ⟨rfl, ?_⟩
    simp only [updateItemState_items, List.length_map]
  · intro hcond
    have hdec : storeDecision env st project (storeRedact pats raw0) = none := by
      rw [storeDecision, hcand]
      unfold dedupDecision
      dsimp only
      rw [if_neg hcond]
    rw [store_create_path env raw0 project today now newId pats st hdec hshelf
      hins hprov hfresh]
    refine ⟨rfl, ?_⟩
    simp

/-- C4 (witness): the sample store, the candidate produced for it by the
dedup probe, and the amended statement at those inputs. -/
theorem store_dedup_threshold_witness :
    storeCandidatesE envDedup sampleSys.db (strOf "proj") = .ok [topAlpha] ∧
    resolveIdPre sampleSys.db.items topAlpha.id = some sampleItemRow ∧
    ((storeDecision envDedup sampleSys (strOf "proj")
          (storeRedact [] rawAlpha) = some topAlpha ↔
        (7 : ℚ) / 10 ≤
            normalizedTopScore (storeBroad envDedup sampleSys.db) topAlpha ∧
          titlesMatch (storeRedact [] rawAlpha).title topAlpha.title = true) ∧
      ((7 : ℚ) / 10 ≤
            normalizedTopScore (storeBroad envDedup sampleSys.db) topAlpha ∧
          titlesMatch (storeRedact [] rawAlpha).title topAlpha.title = true →
        (store envDedup rawAlpha (strOf "proj") (strOf "2026-01-02")
            (strOf "t1") (strOf "bb22") [] sampleSys).1 =
            .ok ⟨topAlpha.id, topAlpha.filePath, strOf "updated"⟩ ∧
          ((store envDedup rawAlpha (strOf "proj") (strOf "2026-01-02")
            (strOf "t1") (strOf "bb22") [] sampleSys).2).db.items.length =
            sampleSys.db.items.length) ∧
      (¬ ((7 : ℚ) / 10 ≤
            normalizedTopScore (storeBroad envDedup sampleSys.db) topAlpha ∧
          titlesMatch (storeRedact [] rawAlpha).title topAlpha.title = true) →
        (store envDedup rawAlpha (strOf "proj") (strOf "2026-01-02")
            (strOf "t1") (strOf "bb22") [] sampleSys).1 =
            .ok ⟨strOf "bb22",
              mkSessionFilePath (strOf "proj") (strOf "2026-01-02"),
              strOf "created"⟩ ∧
          ((store envDedup rawAlpha (strOf "proj") (strOf "2026-01-02")
            (strOf "t1") (strOf "bb22") [] sampleSys).2).db.items.length =
            sampleSys.db.items.length + 1)) :=
  ⟨by decide, by decide,
   store_dedup_threshold envDedup rawAlpha (strOf "proj") (strOf "2026-01-02")
     (strOf "t1") (strOf "bb22") [] sampleSys topAlpha [] sampleItemRow
     (by decide) rfl rfl rfl rfl (by decide) (by decide)⟩

/-- C10: on the dedup update path `Store` always passes a (non-nil) detail
append — the empty string when the incoming item has no details — so an
item without a detail row gains one with an empty body, an item with a
detail row gets a blank-line separator (followed by nothing) appended to
its body, and `GetItem` reports `hasDetails = true` afterwards either
way. -/
theorem store_update_empty_details (env : StoreEnv) (raw0 : RawItemInput)
    (project today now newId : Str) (pats : List (Str → Option Nat))
    (st : SysState) (top : SearchResult) (target : ItemRow)
    (hdec : storeDecision env st project (storeRedact pats raw0) = some top)
    (hupd : env.updFault = false)
    (hres : resolveIdPre st.db.items top.id = some target)
    (hnodet : raw0.details = none) :
    (st.db.details.find? (fun d => d.1 == target.id) = none →
      ((store env raw0 project today now newId pats st).2).db.details =
        st.db.details ++ [(target.id, [])]) ∧
    (∀ b, st.db.details.find? (fun d => d.1 == target.id) = some b →
      ((store env raw0 project today now newId pats st).2).db.details =
        st.db.details.map (fun d =>
          if d.1 == target.id then (d.1, d.2 ++ strOf "\n\n") else d)) ∧
    ((getItem ((store env raw0 project today now newId pats st).2).db
        target.id).map (fun r => r.2) = some true) := by
  have hrd : (storeRedact pats raw0).details = none := by
    rw [storeRedact]
    simp [hnodet]
  rw [store_update_path env raw0 project today now newId pats st top target
    hdec hupd hres]
  simp only [hrd]
  have hmem : target ∈ st.db.items := resolveIdPre_mem hres
  have hfind : ∃ r, (st.db.items.map (updRow target.id (some
      (storeRedact pats raw0).what) (storeRedact pats raw0).why
      (storeRedact pats raw0).impact
      (some (mergeTags top.tags (storeRedact pats raw0).tags)) now)).find?
      (fun r => r.id == target.id) = some r := by
    rw [← Option.isSome_iff_exists, List.find?_isSome]
    refine ⟨updRow target.id (some (storeRedact pats raw0).what)
      (storeRedact pats raw0).why (storeRedact pats raw0).impact
      (some (mergeTags top.tags (storeRedact pats raw0).tags)) now target,
      List.mem_map_of_mem _ hmem, ?_⟩
    rw [updRow_id]
    exact beq_self_eq_true target.id
  refine ⟨?_, ?_, ?_⟩
  · intro hnone
    rw [updateItemState_details_of_none _ _ _ _ _ _ _ _ hnone]
  · intro b hsome
    rw [updateItemState_details_of_some _ _ _ _ _ _ _ _ b hsome]
    refine List.map_congr_left (fun d _ => ?_)
    by_cases hd : (d.1 == target.id) = true
    · rw [if_pos hd, if_pos hd, List.append_nil]
    · rw [if_neg hd, if_neg hd]
  · obtain ⟨r, hr⟩ := hfind
    rw [getItem]
    cases hfd : st.db.details.find? (fun d => d.1 == target.id) with
    | none =>
      rw [updateItemState_details_of_none _ _ _ _ _ _ _ _ hfd,
        updateItemState_items]
      simp only [hr, Option.map_some]
      refine congrArg some ?_
      simp [List.any_append]
    | some b =>
      rw [updateItemState_details_of_some _ _ _ _ _ _ _ _ b hfd,
        updateItemState_items]
      simp only [hr, Option.map_some]
      refine congrArg some ?_
      rw [List.any_eq_true]
      have hbmem : b ∈ st.db.details := List.mem_of_find?_eq_some hfd
      have hbid : (b.1 == target.id) = true := by
        have h2 := List.find?_some hfd
        exact h2
      refine ⟨(b.1, b.2 ++ strOf "\n\n" ++ []), ?_, hbid⟩
      rw [List.mem_map]
      exact ⟨b, hbmem, by rw [if_pos hbid]⟩

/-- C10 (witness): updating the sample item (which has a detail row) with
no incoming details appends exactly one blank-line separator to the
stored detail body. -/
theorem store_update_empty_details_witness :
    rawAlpha.details = none ∧
    ((store envDedup rawAlpha (strOf "proj") (strOf "2026-01-02") (strOf "t1")
        (strOf "bb22") [] sampleSys).2).db.details =
      [(strOf "aa11", strOf "body" ++ strOf "\n\n")] ∧
    (getItem ((store envDedup rawAlpha (strOf "proj") (strOf "2026-01-02")
        (strOf "t1") (strOf "bb22") [] sampleSys).2).db
      sampleItemRow.id).map (fun r => r.2) = some true :=
  ⟨rfl,
   ((store_update_empty_details envDedup rawAlpha (strOf "proj")
       (strOf "2026-01-02") (strOf "t1") (strOf "bb22") [] sampleSys topAlpha
       sampleItemRow storeDecision_sample rfl (by decide) rfl).2.1
     (strOf "aa11", strOf "body") (by decide)).trans (by decide),
   (store_update_empty_details envDedup rawAlpha (strOf "proj")
       (strOf "2026-01-02") (strOf "t1") (strOf "bb22") [] sampleSys topAlpha
       sampleItemRow storeDecision_sample rfl (by decide) rfl).2.2⟩

/-- C9 (counterexample): when an earlier item's text mentions
"## Decisions" mid-line, a later write of a `decision` item takes the
existing-category branch (the substring test fires) but the exact-line
scan never finds the heading, so the new item's section is silently
dropped: its "### B" header appears zero times in the resulting file. -/
theorem shelf_exactly_once_counterexample :
    strContains
      (writeSessionItemContent
        (some (writeSessionItemContent none itemC9a (strOf "2026-01-01") none
          (strOf "t0")))
        itemC9b (strOf "2026-01-01") none (strOf "t0"))
      (strOf "### B") = false := by
  decide

theorem splitOnCh_ne_nil (sep : Char) (s : Str) : splitOnCh sep s ≠ [] := by
  cases s with
  | nil => simp [splitOnCh]
  | cons c rest =>
    rw [splitOnCh]
    by_cases h : c = sep
    · rw [if_pos h]
      simp
    · rw [if_neg h]
      cases hr : splitOnCh sep rest with
      | nil => simp
      | cons l ls => simp

theorem splitOnCh_append_sep (sep : Char) (a b : Str) :
    splitOnCh sep (a ++ sep :: b) = splitOnCh sep a ++ splitOnCh sep b := by
  induction a with
  | nil =>
    rw [List.nil_append]
    conv_lhs => rw [splitOnCh]
    rw [if_pos rfl]
    rfl
  | cons c a ih =>
    conv_lhs => rw [List.cons_append, splitOnCh]
    conv_rhs => rw [splitOnCh]
    by_cases h : c = sep
    · rw [if_pos h, if_pos h, ih]
      rfl
    · rw [if_neg h, if_neg h, ih]
      cases ha : splitOnCh sep a with
      | nil => exact absurd ha (splitOnCh_ne_nil sep a)
      | cons l ls => simp [ha]

theorem splitNl_append_nl (s : Str) :
    splitNl (s ++ nlStr) = splitNl s ++ [[]] := by
  have h := splitOnCh_append_sep '\n' s []
  simpa [splitNl, nlStr] using h

theorem splitNl_no_nl (s : Str) : ∀ l ∈ splitNl s, nlChar ∉ l := by
  rw [splitNl]
  induction s with
  | nil =>
    intro l hl
    rw [splitOnCh] at hl
    simp at hl
    simp [hl]
  | cons c rest ih =>
    intro l hl
    rw [splitOnCh] at hl
    by_cases h : c = '\n'
    · rw [if_pos h] at hl
      rcases List.mem_cons.mp hl with h2 | h2
      · simp [h2]
      · exact ih l h2
    · rw [if_neg h] at hl
      cases ha : splitOnCh '\n' rest with
      | nil => exact absurd ha (splitOnCh_ne_nil '\n' rest)
      | cons l0 ls =>
        rw [ha] at hl
        rcases List.mem_cons.mp hl with h2 | h2
        · subst h2
          intro hmem
          rcases List.mem_cons.mp hmem with h3 | h3
          · exact h h3.symm
          · exact ih l0 (ha ▸ List.mem_cons_self l0 ls) h3
        · exact ih l (ha ▸ List.mem_cons_of_mem l0 h2)

theorem splitNl_single (l : Str) (h : nlChar ∉ l) : splitNl l = [l] := by
  rw [splitNl]
  induction l with
  | nil => rfl
  | cons c rest ih =>
    rw [splitOnCh]
    have hc : ¬ c = '\n' := fun hc =>
      h (hc ▸ List.mem_cons_self c rest)
    rw [if_neg hc]
    rw [ih (fun hm => h (List.mem_cons_of_mem c hm))]

theorem catSplit_cons (x : Str) (L : List Str) :
    catSplit (x :: L) = splitNl x ++ catSplit L := rfl

theorem catSplit_append (A B : List Str) :
    catSplit (A ++ B) = catSplit A ++ catSplit B := by
  induction A with
  | nil => rfl
  | cons x A ih =>
    rw [List.cons_append, catSplit_cons, catSplit_cons, ih, List.append_assoc]

theorem catSplit_id (L : List Str) (h : ∀ l ∈ L, nlChar ∉ l) :
    catSplit L = L := by
  induction L with
  | nil => rfl
  | cons x L ih =>
    rw [catSplit_cons, splitNl_single x (h x (List.mem_cons_self x L)),
      ih (fun l hl => h l (List.mem_cons_of_mem x hl))]
    rfl

theorem joinNl_cons_cons (x y : Str) (R : List Str) :
    joinNl (x :: y :: R) = x ++ nlStr ++ joinNl (y :: R) := by
  rw [joinNl, joinNl, List.intercalate, List.intercalate,
    List.intersperse_cons_cons]
  simp

theorem splitNl_joinNl : ∀ L : List Str, L ≠ [] →
    splitNl (joinNl L) = catSplit L := by
  intro L
  induction L with
  | nil => intro h; exact absurd rfl h
  | cons x R ih =>
    intro _
    cases R with
    | nil =>
      show splitNl (joinNl [x]) = catSplit [x]
      rw [catSplit_cons]
      have : joinNl [x] = x := by
        rw [joinNl, List.intercalate]
        simp
      rw [this]
      simp [catSplit]
    | cons y R2 =>
      rw [joinNl_cons_cons, catSplit_cons, ← ih (by simp)]
      have : x ++ nlStr ++ joinNl (y :: R2) = x ++ '\n' :: joinNl (y :: R2) := by
        simp [nlStr]
      rw [this, splitNl, splitOnCh_append_sep]
      rfl

theorem trimRightNl_append_nl (t : Str) :
    trimRightNl (t ++ [nlChar]) = trimRightNl t := by
  rw [trimRightNl, trimRightNl, List.reverse_append]
  simp [List.dropWhile, nlChar]

theorem splitNl_trimRightNl (s : Str) :
    ∃ k, splitNl s = splitNl (trimRightNl s) ++ List.replicate k [] := by
  induction s using List.reverseRecOn with
  | nil => exact ⟨0, by simp [trimRightNl, splitNl, splitOnCh]⟩
  | append_singleton t c ih =>
    by_cases h : c = nlChar
    · subst h
      obtain ⟨k, hk⟩ := ih
      refine ⟨k + 1, ?_⟩
      rw [trimRightNl_append_nl]
      have : t ++ [nlChar] = t ++ nlStr := rfl
      rw [this, splitNl_append_nl, hk, List.replicate_succ', ← List.append_assoc]
    · refine ⟨0, ?_⟩
      have : trimRightNl (t ++ [c]) = t ++ [c] := by
        rw [trimRightNl, List.reverse_append]
        have hx : ¬ (c = '\n') := h
        simp [List.dropWhile, hx]
      rw [this]
      simp

theorem sub_cons_of_sub {l s : Str} {c : Char} (h : l <:+: s) :
    l <:+: c :: s := by
  obtain ⟨t, u, ht⟩ := h
  refine ⟨c :: t, u, ?_⟩
  rw [← ht]
  rfl

theorem sub_of_pre {l s : Str} (h : l <+: s) : l <:+: s := by
  obtain ⟨u, hu⟩ := h
  exact ⟨[], u, by rw [List.nil_append, hu]⟩

theorem splitOnCh_head_tail_sub (sep : Char) (s : Str) :
    ∃ hd tl, splitOnCh sep s = hd :: tl ∧ hd <+: s ∧
      ∀ l ∈ tl, l <:+: s := by
  induction s with
  | nil => exact ⟨[], [], rfl, List.nil_prefix, by simp⟩
  | cons c rest ih =>
    obtain ⟨hd, tl, hsp, hpre, hinf⟩ := ih
    rw [splitOnCh]
    by_cases h : c = sep
    · rw [if_pos h]
      refine ⟨[], splitOnCh sep rest, rfl, List.nil_prefix, ?_⟩
      intro l hl
      rw [hsp] at hl
      rcases List.mem_cons.mp hl with h2 | h2
      · exact sub_cons_of_sub (h2 ▸ sub_of_pre hpre)
      · exact sub_cons_of_sub (hinf l h2)
    · rw [if_neg h, hsp]
      obtain ⟨u, hu⟩ := hpre
      refine ⟨c :: hd, tl, rfl, ⟨u, by rw [List.cons_append, hu]⟩, ?_⟩
      intro l hl
      exact sub_cons_of_sub (hinf l hl)

theorem mem_splitNl_sub (s l : Str) (h : l ∈ splitNl s) : l <:+: s := by
  obtain ⟨hd, tl, hsp, hpre, hinf⟩ := splitOnCh_head_tail_sub '\n' s
  rw [splitNl, hsp] at h
  rcases List.mem_cons.mp h with h2 | h2
  · exact h2 ▸ sub_of_pre hpre
  · exact hinf l h2

theorem strContains_of_pre (s l : Str) (h : l.isPrefixOf s = true) :
    strContains s l = true := by
  cases s with
  | nil =>
    cases l with
    | nil => rfl
    | cons c r => simp [List.isPrefixOf] at h
  | cons c r =>
    show (l.isPrefixOf (c :: r) || strContains r l) = true
    rw [h, Bool.true_or]

theorem strContains_of_sub (s l : Str) (h : l <:+: s) :
    strContains s l = true := by
  obtain ⟨t, u, hs⟩ := h
  subst hs
  induction t with
  | nil =>
    rw [List.nil_append]
    exact strContains_of_pre (l ++ u) l
      (List.isPrefixOf_iff_prefix.mpr (List.prefix_append l u))
  | cons c t ih =>
    rw [List.cons_append]
    show (l.isPrefixOf (c :: (t ++ l ++ u)) || strContains (t ++ l ++ u) l) =
      true
    rw [ih, Bool.or_true]

theorem lineHeadIdx_nil : lineHeadIdx [] = none := by decide

theorem h2_prefix_headingLine (h : Str) :
    (strOf "## ").isPrefixOf (headingLine h) = true := by
  rw [headingLine]
  exact List.isPrefixOf_iff_prefix.mpr (List.prefix_append _ _)

theorem blank_lineHeadIdx (l : Str) (h : isBlankLine l = true) :
    lineHeadIdx l = none := by
  rw [lineHeadIdx]
  by_cases hp : (strOf "## ").isPrefixOf l = true
  · exfalso
    obtain ⟨u, hu⟩ := List.isPrefixOf_iff_prefix.mp hp
    rw [isBlankLine] at h
    rw [List.isEmpty_iff] at h
    rw [trimSpace] at h
    rw [List.reverse_eq_nil_iff] at h
    rw [List.dropWhile_eq_nil_iff] at h
    have h35 : strOf "## " = '#' :: strOf "# " := rfl
    rw [h35, List.cons_append] at hu
    have hdl : l.dropWhile Char.isWhitespace = l := by
      rw [← hu, List.dropWhile_cons,
        if_neg (by decide : ¬ ('#'.isWhitespace = true))]
    rw [hdl] at h
    have hmem : '#' ∈ l.reverse := by
      rw [List.mem_reverse, ← hu]
      exact List.mem_cons_self _ _
    have := h '#' hmem
    exact absurd this (by decide)
  · rw [if_neg hp]

theorem lineHeadIdx_headingLine :
    ∀ c ∈ ValidCategories, lineHeadIdx (headingLine (categoryHeading c)) =
      ValidCategories.findIdx? (fun x => x == c) := by decide

theorem heading_idx_inj :
    ∀ c1 ∈ ValidCategories, ∀ c2 ∈ ValidCategories,
      lineHeadIdx (headingLine (categoryHeading c1)) =
        lineHeadIdx (headingLine (categoryHeading c2)) → c1 = c2 := by decide

theorem findIdx_valid_isSome :
    ∀ c ∈ ValidCategories,
      (ValidCategories.findIdx? (fun x => x == c)).isSome = true := by decide

theorem count_le_one_of_pairwise_filterMap {l : List Str} {x : Str} {k : Nat}
    (hp : List.Pairwise (· < ·) (l.filterMap lineHeadIdx))
    (hx : lineHeadIdx x = some k) : l.count x ≤ 1 := by
  by_contra hgt
  push_neg at hgt
  have hsub : List.Sublist (List.replicate 2 x) l :=
    List.le_count_iff_replicate_sublist.mp (by omega)
  have h2 : List.Sublist (List.filterMap lineHeadIdx (List.replicate 2 x))
      (l.filterMap lineHeadIdx) := hsub.filterMap _
  have h3 : List.filterMap lineHeadIdx (List.replicate 2 x) = [k, k] := by
    have : List.replicate 2 x = [x, x] := rfl
    rw [this]
    simp [hx]
  rw [h3] at h2
  have h4 := List.Pairwise.sublist h2 hp
  rw [List.pairwise_cons] at h4
  exact absurd (h4.1 k (List.mem_singleton.mpr rfl)) (lt_irrefl k)

theorem headingIdxSeq_append_nl (s : Str) :
    headingIdxSeq (s ++ nlStr) = headingIdxSeq s := by
  rw [headingIdxSeq, headingIdxSeq, splitNl_append_nl, List.filterMap_append]
  simp [lineHeadIdx_nil]

theorem filterMap_replicate_nil (k : Nat) :
    List.filterMap lineHeadIdx (List.replicate k []) = [] := by
  induction k with
  | zero => rfl
  | succ n ih => rw [List.replicate_succ, List.filterMap_cons, lineHeadIdx_nil, ih]

theorem headingIdxSeq_trimRightNl (s : Str) :
    headingIdxSeq (trimRightNl s) = headingIdxSeq s := by
  obtain ⟨k, hk⟩ := splitNl_trimRightNl s
  rw [headingIdxSeq, headingIdxSeq, hk, List.filterMap_append,
    filterMap_replicate_nil, List.append_nil]

theorem count_trimRightNl (s fl : Str) (hne : fl ≠ []) :
    (splitNl (trimRightNl s)).count fl = (splitNl s).count fl := by
  obtain ⟨k, hk⟩ := splitNl_trimRightNl s
  have hx : (([] : Str) == fl) = false := by
    rw [beq_eq_false_iff_ne]
    exact fun h => hne h.symm
  rw [hk, List.count_append, List.count_replicate, hx]
  simp

theorem count_zero_of_subset {L M : List Str} {fl : Str}
    (hsub : ∀ x ∈ L, x ∈ M) (hnot : fl ∉ M) : L.count fl = 0 :=
  List.count_eq_zero.mpr (fun hmem => hnot (hsub fl hmem))

theorem auecF_no_heading (heading sec : Str) :
    ∀ (fuel : Nat) (lines : List Str), lines.length ≤ fuel →
      lines.count (headingLine heading) = 0 →
      auecF heading sec fuel lines = lines := by
  intro fuel
  induction fuel with
  | zero =>
    intro lines _ _
    rfl
  | succ n ih =>
    intro lines hlen hcnt
    cases lines with
    | nil => rfl
    | cons line rest =>
      rw [List.count_cons] at hcnt
      have hb : (line == headingLine heading) = false := by
        by_cases hb : (line == headingLine heading) = true
        · rw [if_pos hb] at hcnt
          omega
        · exact eq_false_of_ne_true hb
      rw [hb] at hcnt
      simp only [Bool.false_eq_true, if_false, Nat.add_zero] at hcnt
      rw [auecF, if_neg (by simp [hb])]
      rw [ih rest (by simp only [List.length_cons] at hlen; omega) hcnt]

theorem auecF_structure (heading sec : Str) :
    ∀ (fuel : Nat) (lines : List Str), lines.length ≤ fuel →
      lines.count (headingLine heading) = 1 →
      ∃ pre suf, lines = pre ++ headingLine heading :: suf ∧
        headingLine heading ∉ pre ∧
        auecF heading sec fuel lines =
          pre ++ headingLine heading ::
            (suf.takeWhile isBlankLine ++
             (suf.dropWhile isBlankLine).takeWhile
               (fun l => !(strOf "## ").isPrefixOf l) ++
             [[], sec]) ++
            (suf.dropWhile isBlankLine).dropWhile
              (fun l => !(strOf "## ").isPrefixOf l) := by
  intro fuel
  induction fuel with
  | zero =>
    intro lines hlen hcnt
    have : lines = [] := List.eq_nil_of_length_eq_zero (Nat.le_zero.mp hlen)
    subst this
    simp at hcnt
  | succ n ih =>
    intro lines hlen hcnt
    cases lines with
    | nil => simp at hcnt
    | cons line rest =>
      rw [List.count_cons] at hcnt
      by_cases hb : (line == headingLine heading) = true
      · have hline : line = headingLine heading := eq_of_beq hb
        rw [if_pos hb] at hcnt
        have hcr : rest.count (headingLine heading) = 0 := by omega
        refine ⟨[], rest, by rw [hline]; rfl, by simp, ?_⟩
        rw [auecF, if_pos hb]
        have hr2cnt : ((rest.dropWhile isBlankLine).dropWhile
            (fun l => !(strOf "## ").isPrefixOf l)).count
            (headingLine heading) = 0 := by
          rw [List.count_eq_zero] at hcr ⊢
          intro hmem
          exact hcr ((List.Sublist.subset
            ((List.dropWhile_sublist _).trans (List.dropWhile_sublist _)))
            hmem)
        have hsub2 : List.Sublist
            ((rest.dropWhile isBlankLine).dropWhile
              (fun l => !(strOf "## ").isPrefixOf l)) rest :=
          (List.dropWhile_sublist _).trans (List.dropWhile_sublist _)
        have hr2len : ((rest.dropWhile isBlankLine).dropWhile
            (fun l => !(strOf "## ").isPrefixOf l)).length ≤ n := by
          have h1 := hsub2.length_le
          simp only [List.length_cons] at hlen
          omega
        dsimp only
        rw [auecF_no_heading heading sec n _ hr2len hr2cnt, hline]
        rfl
      · have hbf : (line == headingLine heading) = false :=
          eq_false_of_ne_true hb
        rw [hbf] at hcnt
        simp only [Bool.false_eq_true, if_false, Nat.add_zero] at hcnt
        obtain ⟨pre, suf, hdec2, hnot, hout⟩ :=
          ih rest (by simp only [List.length_cons] at hlen; omega) hcnt
        refine ⟨line :: pre, suf, by rw [List.cons_append, hdec2], ?_, ?_⟩
        · intro hmem
          rcases List.mem_cons.mp hmem with h2 | h2
          · rw [h2] at hbf
            simp at hbf
          · exact hnot h2
        · rw [auecF, if_neg (by simp [hbf]), hout]
          simp

theorem insertPos_take (t : Nat) :
    ∀ lines : List Str, ∀ l ∈ lines.take (insertPos t lines),
      ∀ k, lineHeadIdx l = some k → k ≤ t := by
  intro lines
  induction lines with
  | nil =>
    intro l hl
    simp [insertPos] at hl
  | cons line rest ih =>
    intro l hl k hk
    rw [insertPos] at hl
    by_cases hp : (strOf "## ").isPrefixOf line = true
    · rw [if_pos hp] at hl
      cases hh : headingToIdx (trimSpace (line.drop 3)) with
      | some k2 =>
        simp only [hh] at hl
        by_cases hlt : t < k2
        · rw [if_pos hlt] at hl
          simp at hl
        · rw [if_neg hlt] at hl
          rw [Nat.add_comm, List.take_succ_cons] at hl
          rcases List.mem_cons.mp hl with h2 | h2
          · rw [h2, lineHeadIdx, if_pos hp, hh] at hk
            cases hk
            omega
          · exact ih l h2 k hk
      | none =>
        simp only [hh] at hl
        rw [Nat.add_comm, List.take_succ_cons] at hl
        rcases List.mem_cons.mp hl with h2 | h2
        · rw [h2, lineHeadIdx, if_pos hp, hh] at hk
          cases hk
        · exact ih l h2 k hk
    · rw [if_neg hp] at hl
      rw [Nat.add_comm, List.take_succ_cons] at hl
      rcases List.mem_cons.mp hl with h2 | h2
      · rw [h2, lineHeadIdx, if_neg hp] at hk
        cases hk
      · exact ih l h2 k hk

theorem insertPos_drop (t : Nat) :
    ∀ lines : List Str, ∀ hd tl,
      lines.drop (insertPos t lines) = hd :: tl →
      ∃ k, lineHeadIdx hd = some k ∧ t < k := by
  intro lines
  induction lines with
  | nil =>
    intro hd tl h
    simp [insertPos] at h
  | cons line rest ih =>
    intro hd tl h
    rw [insertPos] at h
    by_cases hp : (strOf "## ").isPrefixOf line = true
    · rw [if_pos hp] at h
      cases hh : headingToIdx (trimSpace (line.drop 3)) with
      | some k2 =>
        simp only [hh] at h
        by_cases hlt : t < k2
        · rw [if_pos hlt] at h
          rw [List.drop_zero] at h
          cases h
          exact ⟨k2, by rw [lineHeadIdx, if_pos hp, hh], hlt⟩
        · rw [if_neg hlt] at h
          rw [Nat.add_comm, List.drop_succ_cons] at h
          exact ih hd tl h
      | none =>
        simp only [hh] at h
        rw [Nat.add_comm, List.drop_succ_cons] at h
        exact ih hd tl h
    · rw [if_neg hp] at h
      rw [Nat.add_comm, List.drop_succ_cons] at h
      exact ih hd tl h

theorem catSplit_nil : catSplit [] = [] := rfl

theorem heading_no_nl : ∀ c ∈ ValidCategories,
    nlChar ∉ headingLine (categoryHeading c) := by decide

/-- C9 (amended): one `insertSectionInBody` step, on a body whose
substring test agrees with exact heading-line membership, whose H2 lines
are all canonical category headings in strictly increasing global order,
and with a section that injects no heading lines, keeps the heading
sequence strictly increasing — a subsequence of the fixed global category
order — and inserts the section exactly once, witnessed by its unique
header line `fl` appearing exactly once in the result. -/
theorem insertSectionInBody_ordered_once (body sec fl : Str) (item : Item)
    (cat : Str)
    (hcat : item.category = some cat)
    (hvalid : cat ∈ ValidCategories)
    (hord : List.Pairwise (· < ·) (headingIdxSeq body))
    (hsec : (splitNl sec).filterMap lineHeadIdx = [])
    (hagree : strContains body (headingLine (categoryHeading cat)) = true →
      headingLine (categoryHeading cat) ∈ splitNl body)
    (hcanon : ∀ l ∈ splitNl body, (strOf "## ").isPrefixOf l = true →
      ∃ c ∈ ValidCategories, l = headingLine (categoryHeading c))
    (hflcnt : (splitNl sec).count fl = 1)
    (hflnew : fl ∉ splitNl body)
    (hflne : fl ≠ [])
    (hflh2 : (strOf "## ").isPrefixOf fl = false) :
    List.Pairwise (· < ·)
      (headingIdxSeq (insertSectionInBody body item sec)) ∧
    (splitNl (insertSectionInBody body item sec)).count fl = 1 := by
  have hflhl : ∀ h : Str, fl ≠ headingLine h := by
    intro h heq
    rw [heq, h2_prefix_headingLine h] at hflh2
    cases hflh2
  have hhlfl : ((headingLine (categoryHeading cat) : Str) == fl) = false := by
    rw [beq_eq_false_iff_ne]
    exact fun h => (hflhl (categoryHeading cat)) h.symm
  have hnilfl : (([] : Str) == fl) = false := by
    rw [beq_eq_false_iff_ne]
    exact fun h => hflne h.symm
  obtain ⟨ti, hfi⟩ : ∃ ti,
      ValidCategories.findIdx? (fun x => x == cat) = some ti :=
    Option.isSome_iff_exists.mp (findIdx_valid_isSome cat hvalid)
  have hlhl : lineHeadIdx (headingLine (categoryHeading cat)) = some ti := by
    rw [lineHeadIdx_headingLine cat hvalid, hfi]
  have hnlfree : ∀ l ∈ splitNl body, nlChar ∉ l := splitNl_no_nl body
  have hordf : List.Pairwise (· < ·)
      ((splitNl body).filterMap lineHeadIdx) := hord
  unfold insertSectionInBody
  rw [hcat]
  dsimp only
  by_cases hc : strContains body (headingLine (categoryHeading cat)) = true
  · rw [if_pos hc]
    have hmem : headingLine (categoryHeading cat) ∈ splitNl body := hagree hc
    have hcnt1 : (splitNl body).count (headingLine (categoryHeading cat)) =
        1 := by
      have hle := count_le_one_of_pairwise_filterMap hordf hlhl
      have hge : 0 < (splitNl body).count (headingLine (categoryHeading cat)) :=
        List.count_pos_iff.mpr hmem
      omega
    obtain ⟨pre, suf, hdec2, hnotpre, hout⟩ :=
      auecF_structure (categoryHeading cat) sec (splitNl body).length
        (splitNl body) le_rfl hcnt1
    rw [appendUnderExistingCategory, auec, hout]
    have hpresub : ∀ x ∈ pre, x ∈ splitNl body := by
      intro x hx
      rw [hdec2]
      exact List.mem_append_left _ hx
    have hsufsub : ∀ x ∈ suf, x ∈ splitNl body := by
      intro x hx
      rw [hdec2]
      exact List.mem_append_right _ (List.mem_cons_of_mem _ hx)
    have hblsub : ∀ x ∈ suf.takeWhile isBlankLine, x ∈ splitNl body :=
      fun x hx => hsufsub x ((List.takeWhile_sublist _).subset hx)
    have hsecsub : ∀ x ∈ (suf.dropWhile isBlankLine).takeWhile
        (fun l => !(strOf "## ").isPrefixOf l), x ∈ splitNl body :=
      fun x hx => hsufsub x
        (((List.takeWhile_sublist _).trans (List.dropWhile_sublist _)).subset hx)
    have hr2sub : ∀ x ∈ (suf.dropWhile isBlankLine).dropWhile
        (fun l => !(strOf "## ").isPrefixOf l), x ∈ splitNl body :=
      fun x hx => hsufsub x
        (((List.dropWhile_sublist _).trans (List.dropWhile_sublist _)).subset hx)
    have hOUTne : (pre ++ headingLine (categoryHeading cat) ::
        (suf.takeWhile isBlankLine ++
         (suf.dropWhile isBlankLine).takeWhile
           (fun l => !(strOf "## ").isPrefixOf l) ++
         [[], sec]) ++
        (suf.dropWhile isBlankLine).dropWhile
          (fun l => !(strOf "## ").isPrefixOf l)) ≠ [] := by
      simp
    have hcs : catSplit (pre ++ headingLine (categoryHeading cat) ::
        (suf.takeWhile isBlankLine ++
         (suf.dropWhile isBlankLine).takeWhile
           (fun l => !(strOf "## ").isPrefixOf l) ++
         [[], sec]) ++
        (suf.dropWhile isBlankLine).dropWhile
          (fun l => !(strOf "## ").isPrefixOf l)) =
        pre ++ headingLine (categoryHeading cat) ::
          (suf.takeWhile isBlankLine ++
           (suf.dropWhile isBlankLine).takeWhile
             (fun l => !(strOf "## ").isPrefixOf l) ++
           ([] : Str) :: splitNl sec) ++
          (suf.dropWhile isBlankLine).dropWhile
            (fun l => !(strOf "## ").isPrefixOf l) := by
      have hnilsplit : splitNl ([] : Str) = [[]] := rfl
      simp only [catSplit_append, catSplit_cons, catSplit_nil,
        catSplit_id pre (fun l hl => hnlfree l (hpresub l hl)),
        catSplit_id _ (fun l hl => hnlfree l (hblsub l hl)),
        catSplit_id _ (fun l hl => hnlfree l (hsecsub l hl)),
        catSplit_id _ (fun l hl => hnlfree l (hr2sub l hl)),
        splitNl_single _ (hnlfree _ hmem), hnilsplit]
      simp
    have hfm_blanks : (suf.takeWhile isBlankLine).filterMap lineHeadIdx =
        [] := by
      rw [List.filterMap_eq_nil_iff]
      intro l hl
      exact blank_lineHeadIdx l (List.mem_takeWhile_imp hl)
    have hfm_secs : ((suf.dropWhile isBlankLine).takeWhile
        (fun l => !(strOf "## ").isPrefixOf l)).filterMap lineHeadIdx = [] := by
      rw [List.filterMap_eq_nil_iff]
      intro l hl
      have h2 := List.mem_takeWhile_imp hl
      rw [lineHeadIdx, if_neg (by simp at h2; simp [h2])]
    have hsufdec : suf.takeWhile isBlankLine ++
        ((suf.dropWhile isBlankLine).takeWhile
           (fun l => !(strOf "## ").isPrefixOf l) ++
         (suf.dropWhile isBlankLine).dropWhile
           (fun l => !(strOf "## ").isPrefixOf l)) = suf := by
      rw [List.takeWhile_append_dropWhile, List.takeWhile_append_dropWhile]
    have hbody : headingIdxSeq body =
        pre.filterMap lineHeadIdx ++ ti ::
          ((suf.dropWhile isBlankLine).dropWhile
            (fun l => !(strOf "## ").isPrefixOf l)).filterMap lineHeadIdx := by
      rw [headingIdxSeq, hdec2, List.filterMap_append, List.filterMap_cons,
        hlhl, ← hsufdec, List.filterMap_append, List.filterMap_append,
        hfm_blanks, hfm_secs]
      simp
    constructor
    · rw [headingIdxSeq_append_nl, headingIdxSeq, splitNl_joinNl _ hOUTne,
        hcs]
      simp only [List.filterMap_append, List.filterMap_cons, hlhl,
        lineHeadIdx_nil, hfm_blanks, hfm_secs, hsec]
      rw [hbody] at hord
      simpa using hord
    · rw [splitNl_append_nl, List.count_append, splitNl_joinNl _ hOUTne, hcs]
      simp only [List.count_append, List.count_cons, List.count_nil,
        count_zero_of_subset hpresub hflnew,
        count_zero_of_subset hblsub hflnew,
        count_zero_of_subset hsecsub hflnew,
        count_zero_of_subset hr2sub hflnew, hflcnt, hhlfl, hnilfl]
      simp
  · rw [if_neg hc]
    unfold insertNewCategory
    rw [hfi]
    dsimp only
    have hAsub : ∀ x ∈ (splitNl body).take (insertPos ti (splitNl body)),
        x ∈ splitNl body := fun x hx => List.take_subset _ _ hx
    have hBsub : ∀ x ∈ (splitNl body).drop (insertPos ti (splitNl body)),
        x ∈ splitNl body := fun x hx => List.drop_subset _ _ hx
    have hhl_nl : nlChar ∉ headingLine (categoryHeading cat) :=
      heading_no_nl cat hvalid
    have hNLne : ((splitNl body).take (insertPos ti (splitNl body)) ++
        [headingLine (categoryHeading cat), [], sec, []] ++
        (splitNl body).drop (insertPos ti (splitNl body))) ≠ [] := by
      simp
    have hcs : catSplit ((splitNl body).take (insertPos ti (splitNl body)) ++
        [headingLine (categoryHeading cat), [], sec, []] ++
        (splitNl body).drop (insertPos ti (splitNl body))) =
        (splitNl body).take (insertPos ti (splitNl body)) ++
          headingLine (categoryHeading cat) :: ([] : Str) ::
            (splitNl sec ++ ([] : Str) ::
              (splitNl body).drop (insertPos ti (splitNl body))) := by
      have hnilsplit : splitNl ([] : Str) = [[]] := rfl
      simp only [catSplit_append, catSplit_cons, catSplit_nil,
        catSplit_id _ (fun l hl => hnlfree l (hAsub l hl)),
        catSplit_id _ (fun l hl => hnlfree l (hBsub l hl)),
        splitNl_single _ hhl_nl, hnilsplit]
      simp
    have hAf : ∀ a ∈ ((splitNl body).take
        (insertPos ti (splitNl body))).filterMap lineHeadIdx, a < ti := by
      intro a ha
      obtain ⟨l, hlmem, hidx⟩ := List.mem_filterMap.mp ha
      have hle : a ≤ ti := insertPos_take ti (splitNl body) l hlmem a hidx
      rcases Nat.lt_or_ge a ti with h | h
      · exact h
      · exfalso
        have haeq : a = ti := by omega
        subst haeq
        have hlmem2 : l ∈ splitNl body := List.take_subset _ _ hlmem
        have hpre2 : (strOf "## ").isPrefixOf l = true := by
          by_cases hp2 : (strOf "## ").isPrefixOf l = true
          · exact hp2
          · rw [lineHeadIdx, if_neg hp2] at hidx
            cases hidx
        obtain ⟨c, hcval, rfl⟩ := hcanon l hlmem2 hpre2
        have hceq : c = cat :=
          heading_idx_inj c hcval cat hvalid (by rw [hidx, hlhl])
        subst hceq
        exact hc (strContains_of_sub body _ (mem_splitNl_sub body _ hlmem2))
    have hAB : (splitNl body).filterMap lineHeadIdx =
        ((splitNl body).take
          (insertPos ti (splitNl body))).filterMap lineHeadIdx ++
        ((splitNl body).drop
          (insertPos ti (splitNl body))).filterMap lineHeadIdx := by
      conv_lhs => rw [← List.take_append_drop (insertPos ti (splitNl body))
        (splitNl body)]
      rw [List.filterMap_append]
    rw [hAB] at hordf
    obtain ⟨hpA, hpB, hcross⟩ := List.pairwise_append.mp hordf
    have hBf : ∀ b ∈ ((splitNl body).drop
        (insertPos ti (splitNl body))).filterMap lineHeadIdx, ti < b := by
      intro b hb
      cases hB : (splitNl body).drop (insertPos ti (splitNl body)) with
      | nil =>
        rw [hB] at hb
        cases hb
      | cons hd tl =>
        obtain ⟨k2, hk2, hlt2⟩ := insertPos_drop ti (splitNl body) hd tl hB
        rw [hB, List.filterMap_cons, hk2] at hb hpB
        rcases List.mem_cons.mp hb with h2 | h2
        · omega
        · have h3 := (List.pairwise_cons.mp hpB).1 b h2
          omega
    constructor
    · rw [headingIdxSeq_append_nl, headingIdxSeq_trimRightNl, headingIdxSeq,
        splitNl_joinNl _ hNLne, hcs]
      simp only [List.filterMap_append, List.filterMap_cons, hlhl,
        lineHeadIdx_nil, hsec]
      simp only [List.nil_append]
      rw [List.pairwise_append]
      refine ⟨hpA, ?_, ?_⟩
      · rw [List.pairwise_cons]
        exact ⟨hBf, hpB⟩
      · intro a ha b hb
        rcases List.mem_cons.mp hb with h2 | h2
        · subst h2
          exact hAf a ha
        · exact hcross a ha b h2
    · rw [splitNl_append_nl, List.count_append, count_trimRightNl _ _ hflne,
        splitNl_joinNl _ hNLne, hcs]
      simp only [List.count_append, List.count_cons, List.count_nil,
        count_zero_of_subset hAsub hflnew,
        count_zero_of_subset hBsub hflnew, hflcnt, hhlfl, hnilfl]
      simp

/-- C9 (witness): inserting a decision section into a benign body keeps
the heading order strictly increasing and inserts the section exactly
once. -/
theorem insertSectionInBody_ordered_once_witness :
    List.Pairwise (· < ·)
      (headingIdxSeq (insertSectionInBody bodyC9 itemC9b secC9)) ∧
    (splitNl (insertSectionInBody bodyC9 itemC9b secC9)).count
      (strOf "### B") = 1 :=
  insertSectionInBody_ordered_once bodyC9 secC9 (strOf "### B") itemC9b
    (strOf "decision") rfl (by decide) (by decide) (by decide) (by decide)
    (by decide) (by decide) (by decide) (by decide) (by decide)

end Pantry
